import Mathlib

/-!
Shallow embedding of the `RoutesMatcher` routing engine
(`pages-e2e/features/customEntrypoint/assets/custom-entrypoint.ts`) together
with models of the small utility layer it imports.  Pure helpers that live in
the repository's `utils` module (not present in the sources) are either
modelled from the specification (and say so in their doc comment) or kept
abstract as fields of an `Env` record, exactly in the spirit of the spec's
design note that external capabilities are injected interfaces.
-/

namespace NextOnPages

/-- JavaScript string truthiness for `string | undefined | null` values:
`undefined`/`null` and the empty string are falsy. -/
def strTruthy : Option String → Bool
  | some s => s ≠ ""
  | none => false

/-- JavaScript truthiness for an optional numeric status (`0` is falsy). -/
def optNatTruthy : Option Nat → Bool
  | some n => n ≠ 0
  | none => false

/-- The matcher's `body` field: `none` is JS `undefined`; `some none` is JS
`null`; `some (some s)` is a real body.  `!!this.body` is true only in the
last case (a `ReadableStream` is always truthy, `null` is falsy). -/
def bodyTruthy : Option (Option String) → Bool
  | some (some _) => true
  | _ => false

/-- ASCII-style lowercasing of a header key, mirroring the case-insensitive
`Headers` Web API. -/
def hkey (k : String) : String := ⟨k.data.map Char.toLower⟩

/-- Suffix test over the character lists (`String.endsWith`). -/
def sEndsWith (s suf : String) : Bool := suf.data.isSuffixOf s.data

/-- Prefix test over the character lists (`String.startsWith`). -/
def sStartsWith (s pre : String) : Bool := pre.data.isPrefixOf s.data

/-- Drop the last `n` characters (`String.dropRight`). -/
def sDropRight (s : String) (n : Nat) : String := ⟨s.data.take (s.data.length - n)⟩

/-- Uppercasing (`String.toUpper`). -/
def sToUpper (s : String) : String := ⟨s.data.map Char.toUpper⟩

/-- Both-ends whitespace trim (`String.trim`). -/
def sTrim (s : String) : String :=
  ⟨(((s.data.dropWhile Char.isWhitespace).reverse).dropWhile Char.isWhitespace).reverse⟩

/-- Split at commas over the character list (`split(',')`). -/
def splitOnCommaChars : List Char → List (List Char)
  | [] => [[]]
  | ',' :: rest => [] :: splitOnCommaChars rest
  | c :: rest =>
    match splitOnCommaChars rest with
    | h :: t => (c :: h) :: t
    | [] => [[c]]

/-- Split a string at commas (`split(',')`). -/
def splitOnComma (s : String) : List String :=
  (splitOnCommaChars s.data).map (fun cs => ⟨cs⟩)

/-- Substring occurrence test over character lists. -/
def containsSubChars (pat : List Char) : List Char → Bool
  | [] => pat.isEmpty
  | c :: rest => pat.isPrefixOf (c :: rest) || containsSubChars pat rest

/-- Fuel-driven global replacement of a non-empty pattern, left to right and
non-overlapping (`String.replace` / JS `replace` with a `g` regex). -/
def replaceAllGo (pat repl : List Char) : Nat → List Char → List Char
  | 0, l => l
  | fuel + 1, l =>
    if pat ≠ [] && pat.isPrefixOf l then
      repl ++ replaceAllGo pat repl fuel (l.drop pat.length)
    else
      match l with
      | [] => []
      | c :: rest => c :: replaceAllGo pat repl fuel rest

/-- Global replacement of all occurrences of `pat` by `repl` in `s`. -/
def replaceAll (s pat repl : String) : String :=
  ⟨replaceAllGo pat.data repl.data s.data.length s.data⟩

/-- Header collections are association lists with lowercased keys, the model
of a Web `Headers` object. -/
abbrev HeadersL := List (String × String)

/-- `Headers.get`. -/
def hget (h : HeadersL) (k : String) : Option String :=
  (h.find? (fun p => p.1 == hkey k)).map (·.2)

/-- `Headers.set`: replaces an existing entry in place, otherwise appends. -/
def hset (h : HeadersL) (k v : String) : HeadersL :=
  match h with
  | [] => [(hkey k, v)]
  | (k', v') :: t => if k' == hkey k then (k', v) :: t else (k', v') :: hset t k v

/-- `Headers.delete`. -/
def hdelete (h : HeadersL) (k : String) : HeadersL :=
  h.filter (fun p => p.1 ≠ hkey k)

/-- `Headers.has`. -/
def hhas (h : HeadersL) (k : String) : Bool :=
  (hget h k).isSome

/-- Modelled from the spec: `applySearchParams` (missing `utils` module) merges
query parameters into the accumulated collection; per §4.3(d) "later merges
simply add". -/
def applySearchParams (target source : List (String × String)) :
    List (String × String) :=
  target ++ source

/-- Keep the first occurrence of each element, as iteration over a JS `Set`
built from a list does. -/
def dedupFirstGo (seen : List String) : List String → List String
  | [] => []
  | x :: xs => if x ∈ seen then dedupFirstGo seen xs else x :: dedupFirstGo (x :: seen) xs

/-- Deduplicate preserving first occurrences (JS `Set` iteration order). -/
def dedupFirst (l : List String) : List String := dedupFirstGo [] l

/-- The routing phases of the Vercel build output config. -/
inductive VercelPhase where
  | none | filesystem | rewrite | resource | miss | hit | error
deriving DecidableEq, Repr

/-- Modelled from the spec: `getNextPhase` (missing `utils` module) walks the
fixed forward chain `none → filesystem → rewrite → resource → miss` (§4.6);
phases past the chain fall through to `miss`. -/
def getNextPhase : VercelPhase → VercelPhase
  | .none => .filesystem
  | .filesystem => .rewrite
  | .rewrite => .resource
  | .resource => .miss
  | _ => .miss

/-- Result statuses of `checkRoute`. -/
inductive CheckRouteStatus where
  | skip | next | done | error
deriving DecidableEq, Repr

/-- Result statuses of `checkPhase` (the subset `error`/`done`). -/
inductive CheckPhaseStatus where
  | done | error
deriving DecidableEq, Repr

/-- Widening `CheckPhaseStatus` into `CheckRouteStatus`, as `checkRoute`
returns nested `checkPhase` results directly. -/
def phaseToRoute : CheckPhaseStatus → CheckRouteStatus
  | .done => .done
  | .error => .error

/-- Case-insensitive test for a trailing literal, used for the `/.../i`
regexes `/\/index\.rsc$/`, `/\.rsc$/` and `/\.prefetch\.rsc$/`. -/
def endsWithCI (s suffixLower : String) : Bool :=
  sEndsWith (hkey s) suffixLower

/-- `/\/index\.rsc$/i.test(path)`. -/
def isRscIndex (p : String) : Bool := endsWithCI p "/index.rsc"

/-- `/^\/(?:index)?$/i.test(prevPath)`. -/
def isPrevAbsoluteIndex (p : String) : Bool :=
  hkey p == "/" || hkey p == "/index"

/-- `/^\/__index\.prefetch\.rsc$/i.test(prevPath)`. -/
def isPrevPrefetchRscIndex (p : String) : Bool :=
  hkey p == "/__index.prefetch.rsc"

/-- `/\.rsc$/i.test(path)`. -/
def isRsc (p : String) : Bool := endsWithCI p ".rsc"

/-- `/\.prefetch\.rsc$/i.test(path)`. -/
def isPrefetchRsc (p : String) : Bool := endsWithCI p ".prefetch.rsc"

/-- `path.replace(/\.rsc/i, '')` over the character list: remove the first
case-insensitive occurrence of `.rsc` (a dot followed by `r`, `s`, `c`). -/
def stripFirstRscChars : List Char → List Char
  | '.' :: c2 :: c3 :: c4 :: rest =>
    if c2.toLower = 'r' ∧ c3.toLower = 's' ∧ c4.toLower = 'c' then rest
    else '.' :: stripFirstRscChars (c2 :: c3 :: c4 :: rest)
  | c :: rest => c :: stripFirstRscChars rest
  | [] => []

/-- `path.replace(/\.rsc/i, '')`. -/
def replaceFirstRsc (s : String) : String := ⟨stripFirstRscChars s.data⟩

/-- After `(` was consumed: one or more dots then `)` (the tail of the
intercept-route group `\(\.+\)`). -/
def closeAfterDots : List Char → Bool
  | ')' :: _ => true
  | '.' :: rest => closeAfterDots rest
  | _ => false

/-- Does the character list start with a `(\.+\)` group? -/
def parenDotsAt : List Char → Bool
  | '(' :: '.' :: rest => closeAfterDots rest
  | _ => false

/-- `/\/(\(\.+\))+/.test(s)`: somewhere in `s`, a `/` followed by at least one
parenthesized dots group (Next.js's route-interception convention). -/
def hasInterceptChars : List Char → Bool
  | [] => false
  | '/' :: rest => parenDotsAt rest || hasInterceptChars rest
  | _ :: rest => hasInterceptChars rest

/-- The intercept-route sniff applied to a string. -/
def hasIntercept (s : String) : Bool := hasInterceptChars s.data

/-- `/^\^(.)*$/.test(src)`: the string starts with `^` and the remainder
contains no newline (`.` does not match `\n`, `$` only matches at the end). -/
def srcIsRegex (s : String) : Bool :=
  sStartsWith s "^" && (s.data.drop 1).all (· ≠ '\n')

/-- `path.replace(/\/$/, '')`: drop a single trailing slash when present. -/
def dropTrailingSlash (p : String) : String :=
  if sEndsWith p "/" then sDropRight p 1 else p

/-- `src.replace(/\/\(\.\*\)\$$/, '(?:/(.*))?$')`: the regex is anchored at
the end, so it rewrites exactly a trailing literal `/(.*)$`. -/
def replaceTrailingCatchAll (src : String) : String :=
  if sEndsWith src "/(.*)$" then sDropRight src 6 ++ "(?:/(.*))?$" else src

/-- Modelled from the spec: `isUrl` (missing `utils` module) recognizes an
absolute external URL by its http/https scheme. -/
def isUrl (s : String) : Bool :=
  sStartsWith s "http://" || sStartsWith s "https://"

/-- Modelled from the spec: `isLocaleTrailingSlashRegex` (missing `utils`
module) recognizes the build-generated catch-all source rewriting
`/{locale}/*` for one of the known locales (§4.6). -/
def isLocaleTrailingSlashRegex (locales : List String) (src : String) : Bool :=
  locales.any (fun l => src == "^/" ++ l ++ "/(.*)$")

/-- Leftmost match of `new RegExp("/" + locale + "(/.*)")` against the path:
try to take `/locale` at the head, the capture being the following `/` plus
the greedy non-newline run. -/
def localeCaptureAt (locale : List Char) (cs : List Char) : Option (List Char) :=
  match cs with
  | '/' :: rest =>
    if locale.isPrefixOf rest then
      match rest.drop locale.length with
      | '/' :: rest2 => some ('/' :: rest2.takeWhile (· ≠ '\n'))
      | _ => none
    else none
  | _ => none

/-- Scan the path left to right for the first position where the locale
pattern matches (`String.match` returns the leftmost match). -/
def localeCaptureGo (locale : List Char) : List Char → Option (List Char)
  | [] => none
  | c :: rest =>
    match localeCaptureAt locale (c :: rest) with
    | some cap => some cap
    | none => localeCaptureGo locale rest

/-- `this.path.match(new RegExp("/" + locale + "(/.*)"))?.[1]`. -/
def pathWithoutLocale (path locale : String) : Option String :=
  (localeCaptureGo locale.data path.data).map (fun cs => ⟨cs⟩)

/-- A URL as far as the matcher observes it: hostname, path component and
query parameters. -/
structure SimpleURL where
  hostname : String
  pathname : String
  searchParams : List (String × String)
deriving DecidableEq, Repr

/-- Artifact kinds in the Vercel build output map. -/
inductive OutputType where
  | middleware | function | static
deriving DecidableEq, Repr

/-- An artifact record of the build output map. -/
structure OutputItem where
  type : OutputType
  entrypoint : String
deriving DecidableEq, Repr

/-- A `has`/`missing` condition (`VercelHasField`); its evaluation lives in
the missing `utils` module and is kept abstract in `Env`. -/
structure VercelHasField where
  type : String
  key : Option String
  value : Option String
deriving DecidableEq, Repr

/-- The locale options of a route (`locale?: { redirect?, cookie? }`). -/
structure VercelLocale where
  redirect : Option (List (String × String))
  cookie : Option String
deriving DecidableEq, Repr

/-- A route rule (`VercelSource`) from the build output config. -/
structure VercelSource where
  src : String
  dest : Option String
  status : Option Nat
  headers : Option (List (String × String))
  methods : Option (List String)
  has : Option (List VercelHasField)
  missing : Option (List VercelHasField)
  continue' : Option Bool
  override : Option Bool
  important : Option Bool
  caseSensitive : Option Bool
  middlewarePath : Option String
  locale : Option VercelLocale
  check : Option Bool
deriving DecidableEq, Repr

/-- A route rule with every optional field absent; concrete rules are built
by updating it. -/
def emptyRoute : VercelSource :=
  ⟨"", none, none, none, none, none, none, none, none, none, none, none, none, none⟩

/-- The input fed to the abstract `checkhasField` evaluator. -/
structure HasFieldProps where
  url : SimpleURL
  cookies : List (String × String)
  headers : HeadersL
  routeDest : Option String

/-- The result of the abstract `checkhasField` evaluator: validity plus an
optional destination rewritten through a named capture. -/
structure CheckHasResult where
  valid : Bool
  newRouteDest : Option String

/-- Result of the abstract PCRE matcher: the match array (group 0 first,
`none` for unmatched groups) when the pattern matched, and the ordered named
capture group keys. -/
structure MatchPCREResult where
  matchArr : Option (List (Option String))
  captureGroupKeys : List String

/-- The minimal request/response context handed to a middleware invocation. -/
structure MwCtx where
  path : String
  searchParams : List (String × String)
  normal : HeadersL
  important : HeadersL
  middlewareLocation : Option String
  status : Option Nat

/-- A middleware function's response. -/
structure MwResp where
  status : Nat
  headers : HeadersL
  body : Option String

/-- The injected interface over the missing `utils` module and the external
runtime: PCRE matching/substitution, condition evaluation, accept-language
parsing, WHATWG URL resolution and middleware execution are external
collaborators the matcher calls through this record (spec §2, §9). -/
structure Env where
  matchPCRE : String → String → Option Bool → MatchPCREResult
  applyPCREMatches : String → List (Option String) → List String → String
  checkhasField : VercelHasField → HasFieldProps → CheckHasResult
  parseAcceptLanguage : String → List String
  resolveURL : String → SimpleURL → SimpleURL
  urlToString : SimpleURL → String
  runOutputItem : OutputItem → HeadersL → MwCtx → MwResp

/-- The read-only per-request configuration: request URL/method/cookies, the
phase-keyed route table, the artifact map, the matched wildcard value and the
build's locales. -/
structure RMConfig where
  url : SimpleURL
  reqMethod : String
  cookies : List (String × String)
  routes : VercelPhase → List VercelSource
  output : List (String × OutputItem)
  wildcardMatch : Option String
  locales : List String

/-- The mutable per-request matching state of `RoutesMatcher`. -/
structure RMState where
  path : String
  status : Option Nat
  normalHeaders : HeadersL
  importantHeaders : HeadersL
  middlewareLocation : Option String
  searchParams : List (String × String)
  body : Option (Option String)
  checkPhaseCounter : Nat
  middlewareInvoked : List String
  reqHeaders : HeadersL
deriving DecidableEq, Repr

/-- `this.output[path]` lookup in the artifact map. -/
def lookupOutput (cfg : RMConfig) (p : String) : Option OutputItem :=
  cfg.output.lookup p

/-- Substring test, used for `/\$wildcard/.test(processedDest)`. -/
def containsSub (s pat : String) : Bool :=
  containsSubChars pat.data s.data

/-- Modelled from the spec: `applyHeaders` (missing `utils` module) merges a
source header collection into a target, capture-substituting each value when
match information is supplied (§4.3). -/
def applyHeaders (env : Env) (target : HeadersL) (source : List (String × String))
    (pcre : Option (List (Option String) × List String)) : HeadersL :=
  source.foldl
    (fun acc kv =>
      hset acc kv.1
        (match pcre with
         | some (m, ks) => env.applyPCREMatches kv.2 m ks
         | none => kv.2))
    target

/-- Modelled from the spec: the final response header set combines the normal
collection with the important one, the important collection winning on key
collision (§4.3, §3). -/
def finalHeaders (normal important : HeadersL) : HeadersL :=
  important.foldl (fun acc kv => hset acc kv.1 kv.2) normal

/-- `applyRouteOverrides`: an `override` route resets the pending status and
both header collections. -/
def applyRouteOverrides (route : VercelSource) (st : RMState) : RMState :=
  if route.override = some true then
    { st with status := none, normalHeaders := [], importantHeaders := [] }
  else st

/-- `applyRouteHeaders`: capture-substituted rule headers are merged into the
normal collection, and also into the important one when the rule is marked
`important`. -/
def applyRouteHeaders (env : Env) (route : VercelSource)
    (srcMatch : List (Option String)) (captureGroupKeys : List String)
    (st : RMState) : RMState :=
  match route.headers with
  | none => st
  | some hs =>
    let n := applyHeaders env st.normalHeaders hs (some (srcMatch, captureGroupKeys))
    let i :=
      if route.important = some true then
        applyHeaders env st.importantHeaders hs (some (srcMatch, captureGroupKeys))
      else st.importantHeaders
    { st with normalHeaders := n, importantHeaders := i }

/-- `applyRouteStatus`: a (truthy) rule status replaces the pending status. -/
def applyRouteStatus (route : VercelSource) (st : RMState) : RMState :=
  match route.status with
  | some n => if n = 0 then st else { st with status := some n }
  | none => st

/-- The wildcard-substitution step of `applyRouteDest`: when a wildcard value
was matched for the request host and the destination mentions `$wildcard`,
substitute it before the PCRE substitution. -/
def processedDestOf (cfg : RMConfig) (d : String) : String :=
  match cfg.wildcardMatch with
  | some w => if containsSub d "$wildcard" then replaceAll d "$wildcard" w else d
  | none => d

/-- `applyRouteDest`: wildcard then capture substitution, the two RSC
corrections, query merging and re-derivation of the path component.  Returns
the updated state together with the pre-substitution path. -/
def applyRouteDest (env : Env) (cfg : RMConfig) (route : VercelSource)
    (srcMatch : List (Option String)) (captureGroupKeys : List String)
    (st : RMState) : RMState × String :=
  match route.dest with
  | none => (st, st.path)
  | some d =>
    if d = "" then (st, st.path)
    else
      let prevPath := st.path
      let path1 := env.applyPCREMatches (processedDestOf cfg d) srcMatch captureGroupKeys
      let path2 :=
        if isRscIndex path1 && !isPrevAbsoluteIndex prevPath
            && !isPrevPrefetchRscIndex prevPath then prevPath
        else path1
      let path3 :=
        if isRsc path2 && !isPrefetchRsc path2 && (lookupOutput cfg path2).isNone then
          replaceFirstRsc path2
        else path2
      let destUrl := env.resolveURL path3 cfg.url
      let sp := applySearchParams st.searchParams destUrl.searchParams
      let finalPath := if !isUrl path3 then destUrl.pathname else path3
      ({ st with path := finalPath, searchParams := sp }, prevPath)

/-- `applyLocaleRedirects`: automatic locale-detection redirects, cookie
locales taking precedence over accept-language ones. -/
def applyLocaleRedirects (env : Env) (cfg : RMConfig) (route : VercelSource)
    (st : RMState) : RMState :=
  match route.locale with
  | none => st
  | some lc =>
    match lc.redirect with
    | none => st
    | some redirects =>
      if !srcIsRegex route.src && route.src ≠ st.path then st
      else if hhas st.normalHeaders "location" then st
      else
        let cookieValue :=
          match lc.cookie with
          | some cn => if cn = "" then "" else (cfg.cookies.lookup cn).getD ""
          | none => ""
        let cookieLocales := env.parseAcceptLanguage cookieValue
        let headerLocales :=
          env.parseAcceptLanguage ((hget st.reqHeaders "accept-language").getD "")
        let locales := cookieLocales ++ headerLocales
        let redirectLocales :=
          locales.filterMap
            (fun l =>
              match redirects.lookup l with
              | some v => if v = "" then none else some v
              | none => none)
        match redirectLocales.head? with
        | some redirectValue =>
          if !sStartsWith st.path redirectValue then
            { st with normalHeaders := hset st.normalHeaders "location" redirectValue,
                      status := some 307 }
          else st
        | none => st

/-- `getLocaleFriendlyRoute`: in the `miss` phase, extend a locale catch-all
regex so it also matches the bare `/{locale}` form. -/
def getLocaleFriendlyRoute (cfg : RMConfig) (route : VercelSource)
    (phase : VercelPhase) : VercelSource :=
  if phase ≠ .miss then route
  else if isLocaleTrailingSlashRegex cfg.locales route.src then
    { route with src := replaceTrailingCatchAll route.src }
  else route

/-- The `route.has?.find(...)` loop: each condition must hold, a truthy
`newRouteDest` updates the pending destination, and the iteration stops at
the first failing condition. -/
def runHasChain (env : Env) (cfg : RMConfig) (st : RMState)
    (dest : Option String) : List VercelHasField → Bool × Option String
  | [] => (true, dest)
  | h :: t =>
    let r := env.checkhasField h ⟨cfg.url, cfg.cookies, st.reqHeaders, dest⟩
    let dest' := if strTruthy r.newRouteDest then r.newRouteDest else dest
    if !r.valid then (false, dest')
    else runHasChain env cfg st dest' t

/-- The successful result of `checkRouteMatch`: the PCRE match array, the
named capture group keys and the (possibly condition-rewritten) destination. -/
structure RouteMatchRes where
  matchArr : List (Option String)
  captureGroupKeys : List String
  routeDest : Option String
deriving DecidableEq, Repr

/-- `checkRouteMatch`: regex match, HTTP method check, `has`/`missing`
conditions, required status (error phase) and the intercept-route guard
(rewrite phase). -/
def checkRouteMatch (env : Env) (cfg : RMConfig) (st : RMState)
    (route : VercelSource) (checkStatus checkIntercept : Bool) :
    Option RouteMatchRes :=
  let srcMatch := env.matchPCRE route.src st.path route.caseSensitive
  match srcMatch.matchArr with
  | none => none
  | some arr =>
    if route.methods.elim false
        (fun ms => !(ms.map sToUpper).contains (sToUpper cfg.reqMethod)) then
      none
    else
      let hasRes :=
        match route.has with
        | some hs => runHasChain env cfg st route.dest hs
        | none => (true, route.dest)
      if !hasRes.1 then none
      else
        let dest' := hasRes.2
        if route.missing.elim false
            (fun ms =>
              ms.any (fun h =>
                (env.checkhasField h ⟨cfg.url, cfg.cookies, st.reqHeaders, dest'⟩).valid)) then
          none
        else if checkStatus && route.status ≠ st.status then none
        else if checkIntercept && strTruthy route.dest
            && hasIntercept ((route.dest).getD "") && !hasIntercept st.path then
          none
        else some ⟨arr, srcMatch.captureGroupKeys, dest'⟩

/-- One key of the `x-middleware-override-headers` loop: set or delete the
outgoing request header if the provided value differs, then strip the
`x-middleware-request-<key>` directive from the response. -/
def overrideFoldStep (acc : HeadersL × HeadersL) (key : String) :
    HeadersL × HeadersL :=
  let valueKey := "x-middleware-request-" ++ key
  let value := hget acc.2 valueKey
  let reqH' :=
    if hget acc.1 key ≠ value then
      match value with
      | some v => if v = "" then hdelete acc.1 key else hset acc.1 key v
      | none => hdelete acc.1 key
    else acc.1
  (reqH', hdelete acc.2 valueKey)

/-- The `x-middleware-override-headers` block of `processMiddlewareResp`: for
each listed key, set or delete the corresponding outgoing request header if
the provided value differs, stripping the directive headers. -/
def overrideStep (st : RMState) (respH : HeadersL) : RMState × HeadersL :=
  match hget respH "x-middleware-override-headers" with
  | none => (st, respH)
  | some oh =>
    if oh = "" then (st, respH)
    else
      let keys := dedupFirst ((splitOnComma oh).map sTrim)
      let folded := keys.foldl overrideFoldStep (st.reqHeaders, respH)
      ({ st with reqHeaders := folded.1 },
       hdelete folded.2 "x-middleware-override-headers")

/-- The `x-middleware-rewrite` block of `processMiddlewareResp`: resolve the
URL against the request URL, adopt the external URL string or the local
pathname, merge its query parameters and strip the directive.  The boolean
records the header's truthiness for the following block. -/
def rewriteStep (env : Env) (cfg : RMConfig) (st : RMState) (respH : HeadersL) :
    RMState × HeadersL × Bool :=
  match hget respH "x-middleware-rewrite" with
  | none => (st, respH, false)
  | some rw =>
    if rw = "" then (st, respH, false)
    else
      let newUrl := env.resolveURL rw cfg.url
      let rewriteIsExternal := cfg.url.hostname ≠ newUrl.hostname
      let p := if rewriteIsExternal then env.urlToString newUrl else newUrl.pathname
      ({ st with path := p,
                 searchParams := applySearchParams st.searchParams newUrl.searchParams },
       hdelete respH "x-middleware-rewrite", true)

/-- The `x-middleware-next` / short-circuit / redirect block of
`processMiddlewareResp`. -/
def nextStep (st : RMState) (respH : HeadersL) (rwTruthy : Bool)
    (respStatus : Nat) (respBody : Option String) : RMState × HeadersL :=
  match hget respH "x-middleware-next" with
  | some nh =>
    if nh ≠ "" then (st, hdelete respH "x-middleware-next")
    else if !rwTruthy && !hhas respH "location" then
      ({ st with body := some respBody, status := some respStatus }, respH)
    else if hhas respH "location" && 300 ≤ respStatus && respStatus < 400 then
      ({ st with status := some respStatus }, respH)
    else (st, respH)
  | none =>
    if !rwTruthy && !hhas respH "location" then
      ({ st with body := some respBody, status := some respStatus }, respH)
    else if hhas respH "location" && 300 ≤ respStatus && respStatus < 400 then
      ({ st with status := some respStatus }, respH)
    else (st, respH)

/-- `processMiddlewareResp`: interpret the middleware's header directives and
fold the outcome back into the state; the final response headers are copied
onto the outgoing request headers and the normal collection, and a `location`
header is remembered as the middleware location.  The second component is the
response's final (directive-stripped) header collection. -/
def processMiddlewareResp (env : Env) (cfg : RMConfig) (st : RMState)
    (resp : MwResp) : RMState × HeadersL :=
  let s1 := overrideStep st resp.headers
  let s2 := rewriteStep env cfg s1.1 s1.2
  let s3 := nextStep s2.1 s2.2.1 s2.2.2 resp.status resp.body
  let st3 := s3.1
  let h3 := s3.2
  ({ st3 with reqHeaders := applyHeaders env st3.reqHeaders h3 none,
              normalHeaders := applyHeaders env st3.normalHeaders h3 none,
              middlewareLocation := hget h3 "location" },
   h3)

/-- `runRouteMiddleware`: look up and invoke the middleware artifact; a
missing or wrongly-tagged artifact and a middleware 500 set status 500 and
signal failure; otherwise the response is processed.  The invoked path is
recorded right after the invocation. -/
def runRouteMiddleware (env : Env) (cfg : RMConfig) (st : RMState)
    (mwPath : Option String) : Bool × RMState :=
  match mwPath with
  | none => (true, st)
  | some p =>
    if p = "" then (true, st)
    else
      match lookupOutput cfg p with
      | none => (false, { st with status := some 500 })
      | some item =>
        if item.type ≠ .middleware then (false, { st with status := some 500 })
        else
          let resp :=
            env.runOutputItem item st.reqHeaders
              ⟨st.path, st.searchParams, st.normalHeaders, st.importantHeaders,
               st.middlewareLocation, st.status⟩
          let st1 := { st with middlewareInvoked := st.middlewareInvoked ++ [p] }
          if resp.status = 500 then (false, { st1 with status := some resp.status })
          else (true, (processMiddlewareResp env cfg st1 resp).1)

/-- `route.status && route.status >= 300 && route.status <= 399` (the 0
status is falsy). -/
def routeIsRedirect : Option Nat → Bool
  | some n => n ≠ 0 && 300 ≤ n && n ≤ 399
  | none => false

/-- The tail of `checkRoute`: a non-`continue` rule or a redirect status ends
the phase with `done`, otherwise the loop moves on to the next rule. -/
def continueDecision (route : VercelSource) (st : RMState) :
    Option (CheckRouteStatus × RMState) :=
  if route.continue' ≠ some true then some (.done, st)
  else if routeIsRedirect route.status then some (.done, st)
  else some (.next, st)

/-- Exit of one phase's route loop: completion (`shouldContinue = true`), an
early `done` break (`shouldContinue = false`), or an `error` abort. -/
inductive LoopExit where
  | exit (shouldContinue : Bool)
  | err
deriving DecidableEq, Repr

/-- The `route.check` tail of `checkRoute` (source lines 532-564): a no-op
rewrite either 404s (in `miss`) or moves to the next phase; a changed path in
`miss` jumps to `filesystem` when the artifact is absent, or clears a 404;
anywhere else a changed path re-enters the `none` phase. -/
def checkRouteCheckFlow (cfg : RMConfig)
    (recur : VercelPhase → RMState → Option (CheckPhaseStatus × RMState))
    (phase : VercelPhase) (route : VercelSource) (st6 : RMState)
    (prevPath : String) : Option (CheckRouteStatus × RMState) :=
  if route.check = some true && !isUrl st6.path then
    if prevPath = st6.path then
      if phase ≠ .miss then
        (recur (getNextPhase phase) st6).map (fun r => (phaseToRoute r.1, r.2))
      else continueDecision route { st6 with status := some 404 }
    else if phase = .miss then
      if (lookupOutput cfg st6.path).isNone
          && (lookupOutput cfg (dropTrailingSlash st6.path)).isNone then
        (recur .filesystem st6).map (fun r => (phaseToRoute r.1, r.2))
      else if st6.status = some 404 then
        continueDecision route { st6 with status := none }
      else continueDecision route st6
    else
      (recur .none st6).map (fun r => (phaseToRoute r.1, r.2))
  else continueDecision route st6

/-- The effectful pipeline of `checkRoute` once the rule has matched and its
middleware is not a repeat: overrides, locale redirects, middleware, headers,
status, destination, then the `check` flow. -/
def checkRouteApply (env : Env) (cfg : RMConfig)
    (recur : VercelPhase → RMState → Option (CheckPhaseStatus × RMState))
    (phase : VercelPhase) (route : VercelSource)
    (arr : List (Option String)) (ks : List String) (st : RMState) :
    Option (CheckRouteStatus × RMState) :=
  let st1 := applyRouteOverrides route st
  let st2 := applyLocaleRedirects env cfg route st1
  let mw := runRouteMiddleware env cfg st2 route.middlewarePath
  if !mw.1 then some (.error, mw.2)
  else
    let st3 := mw.2
    if st3.body ≠ none || strTruthy st3.middlewareLocation then
      some (.done, st3)
    else
      let st4 := applyRouteHeaders env route arr ks st3
      let st5 := applyRouteStatus route st4
      let destRes := applyRouteDest env cfg route arr ks st5
      checkRouteCheckFlow cfg recur phase route destRes.1 destRes.2

/-- One evaluation of `checkRoute` for a rule, parametrized by the recursive
entry `recur` into `checkPhase` (`none` marks fuel exhaustion of a nested
call, which cannot happen from `run`, see `checkPhase_isSome`). -/
def checkRouteGo (env : Env) (cfg : RMConfig)
    (recur : VercelPhase → RMState → Option (CheckPhaseStatus × RMState))
    (phase : VercelPhase) (rawRoute : VercelSource) (st : RMState) :
    Option (CheckRouteStatus × RMState) :=
  let localeFriendlyRoute := getLocaleFriendlyRoute cfg rawRoute phase
  match checkRouteMatch env cfg st localeFriendlyRoute (phase = .error)
      (phase = .rewrite) with
  | none => some (.skip, st)
  | some res =>
    let route := { localeFriendlyRoute with dest := res.routeDest }
    if strTruthy route.middlewarePath
        && st.middlewareInvoked.contains ((route.middlewarePath).getD "") then
      some (.skip, st)
    else
      checkRouteApply env cfg recur phase route res.matchArr res.captureGroupKeys st

/-- The `for (const route of this.routes[phase])` loop of `checkPhase`. -/
def checkRoutesLoopGo (env : Env) (cfg : RMConfig)
    (recur : VercelPhase → RMState → Option (CheckPhaseStatus × RMState))
    (phase : VercelPhase) : List VercelSource → RMState →
    Option (LoopExit × RMState)
  | [], st => some (.exit true, st)
  | r :: rs, st =>
    match checkRouteGo env cfg recur phase r st with
    | none => none
    | some (.error, st') => some (.err, st')
    | some (.done, st') => some (.exit false, st')
    | some (.skip, st') => checkRoutesLoopGo env cfg recur phase rs st'
    | some (.next, st') => checkRoutesLoopGo env cfg recur phase rs st'

/-- The `none`-phase locale-prefix fixup of `checkPhase`: strip the first
known locale whose suffix exists in the artifact map. -/
def localeStripGo (cfg : RMConfig) (st : RMState) : List String → RMState
  | [] => st
  | l :: ls =>
    match pathWithoutLocale st.path l with
    | some p =>
      if (lookupOutput cfg p).isSome then { st with path := p }
      else localeStripGo cfg st ls
    | none => localeStripGo cfg st ls

/-- The trailing-slash existence recomputation of `checkPhase`: whether the
path (possibly with its trailing slash dropped) exists in the output map,
updating the path when the normalization hits. -/
def computePathExists (cfg : RMConfig) (st : RMState) : Bool × RMState :=
  let e := (lookupOutput cfg st.path).isSome
  if !e && sEndsWith st.path "/" then
    let np := dropTrailingSlash st.path
    if (lookupOutput cfg np).isSome then (true, { st with path := np })
    else (false, st)
  else (e, st)

/-- The `miss`-phase 404: `!this.status || this.status < 400` keeps an error
status, anything else becomes 404. -/
def miss404 : Option Nat → Option Nat
  | none => some 404
  | some n => if n = 0 || n < 400 then some 404 else some n

/-- The tail of `checkPhase` after the route loop (source lines 614-667):
terminal conditions, the `none`-phase locale fixup, existence recomputation,
the `miss` 404 and the next-phase decision. -/
def phaseDecisionGo (_env : Env) (cfg : RMConfig)
    (recur : VercelPhase → RMState → Option (CheckPhaseStatus × RMState))
    (phase : VercelPhase) (shouldContinue : Bool) (st : RMState) :
    Option (CheckPhaseStatus × RMState) :=
  if phase = .hit || isUrl st.path || hhas st.normalHeaders "location"
      || bodyTruthy st.body then
    some (.done, st)
  else
    let stA := if phase = .none then localeStripGo cfg st cfg.locales else st
    let pe := computePathExists cfg stA
    let stB := pe.2
    let stC :=
      if phase = .miss && !pe.1 then { stB with status := miss404 stB.status }
      else stB
    let nextPhase :=
      if pe.1 || phase = .miss || phase = .error then .hit
      else if shouldContinue then getNextPhase phase
      else VercelPhase.miss
    recur nextPhase stC

/-- The body of `checkPhase`, parametrized by the recursive entry: the
50-iteration loop guard (with its post-increment), the middleware-invoked
reset, the route loop and the phase decision. -/
def checkPhaseGo (env : Env) (cfg : RMConfig)
    (recur : VercelPhase → RMState → Option (CheckPhaseStatus × RMState))
    (phase : VercelPhase) (st : RMState) :
    Option (CheckPhaseStatus × RMState) :=
  if 50 ≤ st.checkPhaseCounter then
    some (.error, { st with checkPhaseCounter := st.checkPhaseCounter + 1,
                            status := some 500 })
  else
    let st1 := { st with checkPhaseCounter := st.checkPhaseCounter + 1,
                         middlewareInvoked := [] }
    match checkRoutesLoopGo env cfg recur phase (cfg.routes phase) st1 with
    | none => none
    | some (.err, st2) => some (.error, st2)
    | some (.exit sc, st2) => phaseDecisionGo env cfg recur phase sc st2

/-- `checkPhase`, fuel-indexed: the fuel only bounds the recursion depth of
the shallow embedding, the real loop guard is the phase counter (see
`checkPhase_isSome`). -/
def checkPhase (env : Env) (cfg : RMConfig) :
    Nat → VercelPhase → RMState → Option (CheckPhaseStatus × RMState)
  | 0, _, _ => none
  | fuel + 1, phase, st => checkPhaseGo env cfg (checkPhase env cfg fuel) phase st

/-- `checkRoute` at a given fuel: its nested phase checks run through
`checkPhase` at that fuel. -/
def checkRoute (env : Env) (cfg : RMConfig) (fuel : Nat) :
    VercelPhase → VercelSource → RMState → Option (CheckRouteStatus × RMState) :=
  checkRouteGo env cfg (checkPhase env cfg fuel)

/-- The final step of `run`: promote a pending `location` header with no
redirect-range status into a 307. -/
def promoteLocation (st : RMState) : RMState :=
  if hhas st.normalHeaders "location"
      && (!optNatTruthy st.status || (st.status.getD 0) < 300
          || 400 ≤ (st.status.getD 0)) then
    { st with status := some 307 }
  else st

/-- `run(phase)`: reset the phase counter, check phases from the start phase,
then promote a pending `location` header into a 307.  The fuel 52 covers the
51 phase entries the loop guard admits (proved in `run_isSome_of_terminates`
style lemmas below). -/
def run (env : Env) (cfg : RMConfig) (phase : VercelPhase) (st : RMState) :
    Option (CheckPhaseStatus × RMState) :=
  match checkPhase env cfg 52 phase { st with checkPhaseCounter := 0 } with
  | none => none
  | some (r, st') => some (r, promoteLocation st')

/-- Canonical header collections: every stored key is already lowercased and
keys are pairwise distinct.  The constructor's `new Headers()` (the empty
list) is canonical, and `hset`/`applyHeaders` preserve canonicity. -/
def HCanon (h : HeadersL) : Prop :=
  (∀ kv ∈ h, hkey kv.1 = kv.1) ∧ (h.map Prod.fst).Nodup

/-!
A deterministic test environment: a small concrete instantiation of the
injected interface, together with the request states and route tables used
to evaluate the theorems on concrete inputs.
-/

/-- A toy pattern matcher: `^` and `^/` match any path, `^<p>$` matches the
path `<p>` literally; everything else fails. -/
def matchPCRE0 (src path : String) (_cs : Option Bool) : MatchPCREResult :=
  if src = "^" || src = "^/" then ⟨some [some path], []⟩
  else if src = "^" ++ path ++ "$" then ⟨some [some path], []⟩
  else ⟨none, []⟩

/-- A toy substitution: the destination `$swap` alternates `/a` and `/b`
depending on the matched path; every other destination is verbatim. -/
def applyPCREMatches0 (d : String) (arr : List (Option String))
    (_ks : List String) : String :=
  if d = "$swap" then
    match arr with
    | some p :: _ => if p = "/a" then "/b" else "/a"
    | _ => d
  else d

/-- A toy condition evaluator: every condition holds. -/
def checkhasField0 (_h : VercelHasField) (_p : HasFieldProps) : CheckHasResult :=
  ⟨true, none⟩

/-- A toy accept-language parser: comma-split and trim. -/
def parseAcceptLanguage0 (s : String) : List String :=
  if s = "" then [] else (splitOnComma s).map sTrim

/-- A toy URL resolver: an `https://other.example` target resolves to an
external host, everything else keeps the base host and becomes the path. -/
def resolveURL0 (s : String) (base : SimpleURL) : SimpleURL :=
  if sStartsWith s "https://other.example" then ⟨"other.example", "/ext", []⟩
  else ⟨base.hostname, s, []⟩

/-- A toy URL serializer. -/
def urlToString0 (u : SimpleURL) : String := "https://" ++ u.hostname ++ u.pathname

/-- A toy middleware runtime keyed on the artifact's entrypoint. -/
def runOutputItem0 (item : OutputItem) (_rq : HeadersL) (_ctx : MwCtx) : MwResp :=
  if item.entrypoint = "mw500" then ⟨500, [], none⟩
  else if item.entrypoint = "mwbody" then ⟨200, [], some "hello"⟩
  else ⟨200, [("x-middleware-next", "1")], none⟩

/-- The deterministic test environment. -/
def env0 : Env :=
  ⟨matchPCRE0, applyPCREMatches0, checkhasField0, parseAcceptLanguage0,
   resolveURL0, urlToString0, runOutputItem0⟩

/-- A fresh request state for the path `/x`. -/
def st0 : RMState := ⟨"/x", none, [], [], none, [], none, 0, [], []⟩

/-- A request configuration with no routes at all. -/
def cfg0 : RMConfig :=
  ⟨⟨"example.com", "/x", []⟩, "GET", [], fun _ => [], [], none, []⟩

/-- A `check`-marked rule that maps `/a` to `/b` and back (through the toy
substitution), i.e. a route table whose rewrites cycle. -/
def swapRoute : VercelSource :=
  { emptyRoute with src := "^", dest := some "$swap", check := some true }

/-- A route table whose `filesystem` phase rewrites cyclically: evaluation
ping-pongs between `none` and `filesystem` until the loop guard trips. -/
def cfgLoop : RMConfig :=
  ⟨⟨"example.com", "/a", []⟩, "GET", [],
   fun ph => if ph = .filesystem then [swapRoute] else [], [], none, []⟩

/-- A fresh request state for the path `/a`. -/
def stA : RMState := ⟨"/a", none, [], [], none, [], none, 0, [], []⟩

/-- The state `/a` with the phase counter already at 49. -/
def stA49 : RMState := ⟨"/a", none, [], [], none, [], none, 49, [], []⟩

/-- The state `/a` with the phase counter already at 50. -/
def stA50 : RMState := ⟨"/a", none, [], [], none, [], none, 50, [], []⟩

/-- A rule that sets a locale redirect and names a middleware that is absent
from the artifact map. -/
def locMwRoute : VercelSource :=
  { emptyRoute with src := "^", middlewarePath := some "/mw-missing",
                    locale := some ⟨some [("fr", "/fr")], none⟩ }

/-- The route table for the run-with-location error scenario. -/
def cfgLocErr : RMConfig :=
  ⟨⟨"example.com", "/x", []⟩, "GET", [],
   fun ph => if ph = .none then [locMwRoute] else [], [], none, []⟩

/-- The request state carrying an `accept-language: fr` header. -/
def stAl : RMState :=
  ⟨"/x", none, [], [], none, [], none, 0, [], [("accept-language", "fr")]⟩

/-- A rule whose destination computes to the double-RSC path. -/
def rscRoute : VercelSource :=
  { emptyRoute with src := "^", dest := some "/a.rsc/b.rsc" }

/-- A root-rewrite rule mapping everything to `/index.rsc`. -/
def idxRoute : VercelSource :=
  { emptyRoute with src := "^/", dest := some "/index.rsc" }

/-- A fresh request state for the path `/about`. -/
def stAbout : RMState := ⟨"/about", none, [], [], none, [], none, 0, [], []⟩

/-- A locale-redirect rule with cookie `NEXT_LOCALE` and targets for `fr` and
`de`. -/
def locRoute : VercelSource :=
  { emptyRoute with src := "^/",
                    locale := some ⟨some [("fr", "/fr"), ("de", "/de")],
                                    some "NEXT_LOCALE"⟩ }

/-- A request configuration whose cookie jar carries `NEXT_LOCALE=fr`. -/
def cfgC4 : RMConfig :=
  ⟨⟨"example.com", "/x", []⟩, "GET", [("NEXT_LOCALE", "fr")],
   fun _ => [], [], none, []⟩

/-- The request state carrying an `accept-language: de` header. -/
def stC4 : RMState :=
  ⟨"/x", none, [], [], none, [], none, 0, [], [("accept-language", "de")]⟩

/-- A rule marked `important` setting `x-test: a`. -/
def hdrRoute1 : VercelSource :=
  { emptyRoute with src := "^", headers := some [("x-test", "a")],
                    important := some true, continue' := some true }

/-- A later non-important rule setting `x-test: b`. -/
def hdrRoute2 : VercelSource :=
  { emptyRoute with src := "^", headers := some [("x-test", "b")],
                    continue' := some true }

/-- A rule naming the middleware `/mw`. -/
def mwRoute : VercelSource :=
  { emptyRoute with src := "^", middlewarePath := some "/mw" }

/-- The state `/x` with middleware `/mw` already recorded as invoked. -/
def stMw : RMState := ⟨"/x", none, [], [], none, [], none, 0, ["/mw"], []⟩

/-- A middleware response that rewrites to `/rewritten?q=1`-style URL. -/
def respRw : MwResp :=
  ⟨200, [("x-middleware-rewrite", "/rewritten"), ("x-middleware-next", "1")], none⟩

/-- The state in which the locale-then-missing-middleware run ends. -/
def stC10res : RMState :=
  ⟨"/x", some 307, [("location", "/fr")], [], none, [], none, 1, [],
   [("accept-language", "fr")]⟩

/-!
Basic lemmas about the header-collection model.
-/

theorem hkey_append (a b : String) : hkey (a ++ b) = hkey a ++ hkey b := by
  cases a with
  | mk la =>
    cases b with
    | mk lb =>
      show hkey ⟨la ++ lb⟩ = _
      simp [hkey, String.ext_iff]

theorem hkey_length (s : String) : (hkey s).length = s.length := by
  cases s with
  | mk l => simp [hkey, String.length]

theorem mwRequestKey_ne_key (key k : String)
    (hk : (hkey k).length < 21) : hkey ("x-middleware-request-" ++ key) ≠ hkey k := by
  intro h
  have hlen := congrArg String.length h
  rw [hkey_append, String.length_append] at hlen
  have h21 : (hkey "x-middleware-request-").length = 21 := by decide
  omega

theorem hget_nil (k : String) : hget [] k = none := rfl

theorem hget_cons (k0 v0 : String) (t : HeadersL) (k : String) :
    hget ((k0, v0) :: t) k = if k0 = hkey k then some v0 else hget t k := by
  by_cases h : k0 = hkey k
  · simp [hget, List.find?, h]
  · have hb : (k0 == hkey k) = false := by simp [h]
    simp [hget, List.find?, hb, h]

theorem hset_cons (k0 v0 : String) (t : HeadersL) (k v : String) :
    hset ((k0, v0) :: t) k v =
      if k0 = hkey k then (k0, v) :: t else (k0, v0) :: hset t k v := by
  by_cases h : k0 = hkey k <;> simp [hset, h]

theorem hdelete_nil (k : String) : hdelete [] k = [] := rfl

theorem hdelete_cons (k0 v0 : String) (t : HeadersL) (k : String) :
    hdelete ((k0, v0) :: t) k =
      if k0 = hkey k then hdelete t k else (k0, v0) :: hdelete t k := by
  by_cases h : k0 = hkey k <;> simp [hdelete, List.filter_cons, h]

theorem hget_hset_self (h : HeadersL) (k v : String) :
    hget (hset h k v) k = some v := by
  induction h with
  | nil => simp [hset, hget_cons]
  | cons kv t ih =>
    obtain ⟨k', v'⟩ := kv
    rw [hset_cons]
    by_cases hk : k' = hkey k
    · simp [hk, hget_cons]
    · simp [hk, hget_cons, ih]

theorem hget_hset_ne (h : HeadersL) (k k' v : String) (hne : hkey k ≠ hkey k') :
    hget (hset h k' v) k = hget h k := by
  have hne' : hkey k' ≠ hkey k := fun h2 => hne h2.symm
  induction h with
  | nil => simp [hset, hget_cons, hget_nil, hne']
  | cons kv t ih =>
    obtain ⟨k0, v0⟩ := kv
    rw [hset_cons]
    by_cases hk : k0 = hkey k'
    · subst hk
      simp [hget_cons, hne']
    · by_cases hk2 : k0 = hkey k
      · simp [hk, hget_cons, hk2, hne]
      · simp [hk, hget_cons, hk2, ih]

theorem hget_hdelete_ne (h : HeadersL) (k k' : String) (hne : hkey k ≠ hkey k') :
    hget (hdelete h k') k = hget h k := by
  induction h with
  | nil => simp [hdelete_nil]
  | cons kv t ih =>
    obtain ⟨k0, v0⟩ := kv
    rw [hdelete_cons]
    by_cases hk : k0 = hkey k'
    · subst hk
      have hk2 : hkey k' ≠ hkey k := fun h2 => hne h2.symm
      simp [hget_cons, hk2, ih]
    · by_cases hk2 : k0 = hkey k
      · simp [hk, hget_cons, hk2, hne]
      · simp [hk, hget_cons, hk2, ih]

theorem hget_hdelete_self (h : HeadersL) (k : String) :
    hget (hdelete h k) k = none := by
  induction h with
  | nil => simp [hdelete_nil, hget_nil]
  | cons kv t ih =>
    obtain ⟨k0, v0⟩ := kv
    rw [hdelete_cons]
    by_cases hk : k0 = hkey k
    · simp [hk, ih]
    · simp [hk, hget_cons, ih]

/-!
Frame lemmas: each route-effect operation only rewrites the state fields it
is about, leaving the rest untouched.
-/

theorem applyRouteOverrides_eq (route : VercelSource) (st : RMState) :
    ∃ s n i, applyRouteOverrides route st =
      { st with status := s, normalHeaders := n, importantHeaders := i } := by
  unfold applyRouteOverrides
  split
  · exact ⟨_, _, _, rfl⟩
  · exact ⟨st.status, st.normalHeaders, st.importantHeaders, rfl⟩

theorem applyLocaleRedirects_eq (env : Env) (cfg : RMConfig)
    (route : VercelSource) (st : RMState) :
    ∃ n s, applyLocaleRedirects env cfg route st =
      { st with normalHeaders := n, status := s } := by
  unfold applyLocaleRedirects
  dsimp only
  repeat' split
  all_goals exact ⟨_, _, rfl⟩

theorem applyRouteHeaders_eq (env : Env) (route : VercelSource)
    (arr : List (Option String)) (ks : List String) (st : RMState) :
    ∃ n i, applyRouteHeaders env route arr ks st =
      { st with normalHeaders := n, importantHeaders := i } := by
  unfold applyRouteHeaders
  repeat' split
  all_goals exact ⟨_, _, rfl⟩

theorem applyRouteStatus_eq (route : VercelSource) (st : RMState) :
    ∃ s, applyRouteStatus route st = { st with status := s } := by
  unfold applyRouteStatus
  repeat' split
  all_goals exact ⟨_, rfl⟩

theorem applyRouteDest_eq (env : Env) (cfg : RMConfig) (route : VercelSource)
    (arr : List (Option String)) (ks : List String) (st : RMState) :
    ∃ p sp, (applyRouteDest env cfg route arr ks st).1 =
      { st with path := p, searchParams := sp } := by
  unfold applyRouteDest
  repeat' split
  all_goals exact ⟨_, _, rfl⟩

theorem overrideStep_eq (st : RMState) (respH : HeadersL) :
    ∃ rq, (overrideStep st respH).1 = { st with reqHeaders := rq } := by
  unfold overrideStep
  repeat' split
  all_goals exact ⟨_, rfl⟩

theorem rewriteStep_eq (env : Env) (cfg : RMConfig) (st : RMState)
    (respH : HeadersL) :
    ∃ p sp, (rewriteStep env cfg st respH).1 =
      { st with path := p, searchParams := sp } := by
  unfold rewriteStep
  repeat' split
  all_goals exact ⟨_, _, rfl⟩

theorem nextStep_eq (st : RMState) (respH : HeadersL) (rw : Bool)
    (rs : Nat) (rb : Option String) :
    ∃ b s, (nextStep st respH rw rs rb).1 = { st with body := b, status := s } := by
  unfold nextStep
  repeat' split
  all_goals exact ⟨_, _, rfl⟩

theorem overrideStep_counter (st : RMState) (h : HeadersL) :
    (overrideStep st h).1.checkPhaseCounter = st.checkPhaseCounter := by
  obtain ⟨rq, e⟩ := overrideStep_eq st h
  rw [e]

theorem overrideStep_invoked (st : RMState) (h : HeadersL) :
    (overrideStep st h).1.middlewareInvoked = st.middlewareInvoked := by
  obtain ⟨rq, e⟩ := overrideStep_eq st h
  rw [e]

theorem rewriteStep_counter (env : Env) (cfg : RMConfig) (st : RMState)
    (h : HeadersL) :
    (rewriteStep env cfg st h).1.checkPhaseCounter = st.checkPhaseCounter := by
  obtain ⟨p, sp, e⟩ := rewriteStep_eq env cfg st h
  rw [e]

theorem rewriteStep_invoked (env : Env) (cfg : RMConfig) (st : RMState)
    (h : HeadersL) :
    (rewriteStep env cfg st h).1.middlewareInvoked = st.middlewareInvoked := by
  obtain ⟨p, sp, e⟩ := rewriteStep_eq env cfg st h
  rw [e]

theorem nextStep_counter (st : RMState) (h : HeadersL) (rw : Bool) (rs : Nat)
    (rb : Option String) :
    (nextStep st h rw rs rb).1.checkPhaseCounter = st.checkPhaseCounter := by
  obtain ⟨b, s, e⟩ := nextStep_eq st h rw rs rb
  rw [e]

theorem nextStep_invoked (st : RMState) (h : HeadersL) (rw : Bool) (rs : Nat)
    (rb : Option String) :
    (nextStep st h rw rs rb).1.middlewareInvoked = st.middlewareInvoked := by
  obtain ⟨b, s, e⟩ := nextStep_eq st h rw rs rb
  rw [e]

theorem processMiddlewareResp_counter (env : Env) (cfg : RMConfig)
    (st : RMState) (resp : MwResp) :
    (processMiddlewareResp env cfg st resp).1.checkPhaseCounter =
      st.checkPhaseCounter := by
  unfold processMiddlewareResp
  dsimp only
  rw [nextStep_counter, rewriteStep_counter, overrideStep_counter]

theorem processMiddlewareResp_invoked (env : Env) (cfg : RMConfig)
    (st : RMState) (resp : MwResp) :
    (processMiddlewareResp env cfg st resp).1.middlewareInvoked =
      st.middlewareInvoked := by
  unfold processMiddlewareResp
  dsimp only
  rw [nextStep_invoked, rewriteStep_invoked, overrideStep_invoked]

theorem runRouteMiddleware_fail_status (env : Env) (cfg : RMConfig)
    (st : RMState) (mp : Option String) (st' : RMState)
    (h : runRouteMiddleware env cfg st mp = (false, st')) :
    st'.status = some 500 := by
  unfold runRouteMiddleware at h
  dsimp only at h
  repeat' split at h
  all_goals simp only [Prod.mk.injEq] at h
  all_goals obtain ⟨hb, hs⟩ := h
  all_goals first
    | (simp at hb)
    | (subst hs; rfl)
    | (subst hs; simp_all)

theorem runRouteMiddleware_counter (env : Env) (cfg : RMConfig)
    (st : RMState) (mp : Option String) (b : Bool) (st' : RMState)
    (h : runRouteMiddleware env cfg st mp = (b, st')) :
    st'.checkPhaseCounter = st.checkPhaseCounter := by
  unfold runRouteMiddleware at h
  dsimp only at h
  repeat' split at h
  all_goals simp only [Prod.mk.injEq] at h
  all_goals obtain ⟨hb, hs⟩ := h
  all_goals subst hs
  all_goals simp [processMiddlewareResp_counter]

theorem runRouteMiddleware_invoked (env : Env) (cfg : RMConfig)
    (st : RMState) (mp : Option String) (b : Bool) (st' : RMState)
    (h : runRouteMiddleware env cfg st mp = (b, st')) :
    st'.middlewareInvoked = st.middlewareInvoked ∨
      ∃ p, mp = some p ∧ p ≠ "" ∧
        st'.middlewareInvoked = st.middlewareInvoked ++ [p] := by
  unfold runRouteMiddleware at h
  dsimp only at h
  repeat' split at h
  all_goals simp only [Prod.mk.injEq] at h
  all_goals obtain ⟨hb, hs⟩ := h
  all_goals subst hs
  all_goals first
    | exact Or.inl rfl
    | exact Or.inr ⟨_, rfl, by assumption, rfl⟩
    | exact Or.inr ⟨_, rfl, by assumption, by simp [processMiddlewareResp_invoked]⟩

theorem applyRouteOverrides_counter (route : VercelSource) (st : RMState) :
    (applyRouteOverrides route st).checkPhaseCounter = st.checkPhaseCounter := by
  obtain ⟨s, n, i, e⟩ := applyRouteOverrides_eq route st
  rw [e]

theorem applyRouteOverrides_invoked (route : VercelSource) (st : RMState) :
    (applyRouteOverrides route st).middlewareInvoked = st.middlewareInvoked := by
  obtain ⟨s, n, i, e⟩ := applyRouteOverrides_eq route st
  rw [e]

theorem applyLocaleRedirects_counter (env : Env) (cfg : RMConfig)
    (route : VercelSource) (st : RMState) :
    (applyLocaleRedirects env cfg route st).checkPhaseCounter =
      st.checkPhaseCounter := by
  obtain ⟨n, s, e⟩ := applyLocaleRedirects_eq env cfg route st
  rw [e]

theorem applyLocaleRedirects_invoked (env : Env) (cfg : RMConfig)
    (route : VercelSource) (st : RMState) :
    (applyLocaleRedirects env cfg route st).middlewareInvoked =
      st.middlewareInvoked := by
  obtain ⟨n, s, e⟩ := applyLocaleRedirects_eq env cfg route st
  rw [e]

theorem applyRouteHeaders_counter (env : Env) (route : VercelSource)
    (arr : List (Option String)) (ks : List String) (st : RMState) :
    (applyRouteHeaders env route arr ks st).checkPhaseCounter =
      st.checkPhaseCounter := by
  obtain ⟨n, i, e⟩ := applyRouteHeaders_eq env route arr ks st
  rw [e]

theorem applyRouteHeaders_invoked (env : Env) (route : VercelSource)
    (arr : List (Option String)) (ks : List String) (st : RMState) :
    (applyRouteHeaders env route arr ks st).middlewareInvoked =
      st.middlewareInvoked := by
  obtain ⟨n, i, e⟩ := applyRouteHeaders_eq env route arr ks st
  rw [e]

theorem applyRouteStatus_counter (route : VercelSource) (st : RMState) :
    (applyRouteStatus route st).checkPhaseCounter = st.checkPhaseCounter := by
  obtain ⟨s, e⟩ := applyRouteStatus_eq route st
  rw [e]

theorem applyRouteStatus_invoked (route : VercelSource) (st : RMState) :
    (applyRouteStatus route st).middlewareInvoked = st.middlewareInvoked := by
  obtain ⟨s, e⟩ := applyRouteStatus_eq route st
  rw [e]

theorem applyRouteDest_counter (env : Env) (cfg : RMConfig) (route : VercelSource)
    (arr : List (Option String)) (ks : List String) (st : RMState) :
    (applyRouteDest env cfg route arr ks st).1.checkPhaseCounter =
      st.checkPhaseCounter := by
  obtain ⟨p, sp, e⟩ := applyRouteDest_eq env cfg route arr ks st
  rw [e]

theorem applyRouteDest_invoked (env : Env) (cfg : RMConfig) (route : VercelSource)
    (arr : List (Option String)) (ks : List String) (st : RMState) :
    (applyRouteDest env cfg route arr ks st).1.middlewareInvoked =
      st.middlewareInvoked := by
  obtain ⟨p, sp, e⟩ := applyRouteDest_eq env cfg route arr ks st
  rw [e]

theorem localeStripGo_eq (cfg : RMConfig) (st : RMState) (ls : List String) :
    ∃ p, localeStripGo cfg st ls = { st with path := p } := by
  induction ls with
  | nil => exact ⟨st.path, rfl⟩
  | cons l t ih =>
    unfold localeStripGo
    repeat' split
    · exact ⟨_, rfl⟩
    · exact ih
    · exact ih

theorem computePathExists_eq (cfg : RMConfig) (st : RMState) :
    ∃ p, (computePathExists cfg st).2 = { st with path := p } := by
  unfold computePathExists
  dsimp only
  repeat' split
  all_goals exact ⟨_, rfl⟩

/-!
Case characterizations of one `checkRoute` evaluation: either the result
state comes from the pure effect pipeline (phase counter unchanged, at most
one new middleware recorded, `error` only with status 500), or it is the
verbatim result of a nested `checkPhase` call on a pipeline state.
-/

theorem continueDecision_cases (route : VercelSource) (st : RMState)
    (r : CheckRouteStatus) (st' : RMState)
    (h : continueDecision route st = some (r, st')) :
    st' = st ∧ (r = .done ∨ r = .next) := by
  unfold continueDecision at h
  repeat' split at h
  all_goals simp only [Option.some.injEq, Prod.mk.injEq] at h
  all_goals obtain ⟨h1, h2⟩ := h
  all_goals subst h2
  all_goals exact ⟨rfl, by simp [← h1]⟩

theorem checkRouteCheckFlow_cases (cfg : RMConfig)
    (recur : VercelPhase → RMState → Option (CheckPhaseStatus × RMState))
    (phase : VercelPhase) (route : VercelSource) (st6 : RMState)
    (prevPath : String) (r : CheckRouteStatus) (st' : RMState)
    (h : checkRouteCheckFlow cfg recur phase route st6 prevPath = some (r, st')) :
    ((st' = st6 ∨ st' = { st6 with status := some 404 }
        ∨ st' = { st6 with status := none }) ∧ (r = .done ∨ r = .next))
    ∨ (∃ ph res, recur ph st6 = some res ∧ r = phaseToRoute res.1 ∧ st' = res.2) := by
  unfold checkRouteCheckFlow at h
  repeat' split at h
  all_goals first
    | (simp only [Option.map_eq_some'] at h
       obtain ⟨res, hres, heq⟩ := h
       simp only [Prod.mk.injEq] at heq
       exact Or.inr ⟨_, res, hres, heq.1.symm, heq.2.symm⟩)
    | (obtain ⟨he, hr⟩ := continueDecision_cases _ _ _ _ h
       first
       | exact Or.inl ⟨Or.inl he, hr⟩
       | exact Or.inl ⟨Or.inr (Or.inl he), hr⟩
       | exact Or.inl ⟨Or.inr (Or.inr he), hr⟩)

theorem checkRouteApply_cases (env : Env) (cfg : RMConfig)
    (recur : VercelPhase → RMState → Option (CheckPhaseStatus × RMState))
    (phase : VercelPhase) (route : VercelSource) (arr : List (Option String))
    (ks : List String) (st : RMState) (r : CheckRouteStatus) (st' : RMState)
    (h : checkRouteApply env cfg recur phase route arr ks st = some (r, st')) :
    (st'.checkPhaseCounter = st.checkPhaseCounter
      ∧ (st'.middlewareInvoked = st.middlewareInvoked ∨
          ∃ p, route.middlewarePath = some p ∧ p ≠ "" ∧
            st'.middlewareInvoked = st.middlewareInvoked ++ [p])
      ∧ (r = .error → st'.status = some 500))
    ∨ (∃ ph s6 res, recur ph s6 = some res ∧ r = phaseToRoute res.1 ∧ st' = res.2
        ∧ s6.checkPhaseCounter = st.checkPhaseCounter
        ∧ (s6.middlewareInvoked = st.middlewareInvoked ∨
            ∃ p, route.middlewarePath = some p ∧ p ≠ "" ∧
              s6.middlewareInvoked = st.middlewareInvoked ++ [p])) := by
  unfold checkRouteApply at h
  dsimp only at h
  rcases hmw : runRouteMiddleware env cfg
      (applyLocaleRedirects env cfg route (applyRouteOverrides route st))
      route.middlewarePath with ⟨b2, stM⟩
  rw [hmw] at h
  have hMc : stM.checkPhaseCounter = st.checkPhaseCounter := by
    have := runRouteMiddleware_counter env cfg _ _ _ _ hmw
    rw [this, applyLocaleRedirects_counter, applyRouteOverrides_counter]
  have hMi : stM.middlewareInvoked = st.middlewareInvoked ∨
      ∃ p, route.middlewarePath = some p ∧ p ≠ "" ∧
        stM.middlewareInvoked = st.middlewareInvoked ++ [p] := by
    have := runRouteMiddleware_invoked env cfg _ _ _ _ hmw
    rw [applyLocaleRedirects_invoked, applyRouteOverrides_invoked] at this
    exact this
  cases b2 with
  | false =>
    simp only [Bool.not_false, if_pos, Option.some.injEq, Prod.mk.injEq] at h
    obtain ⟨hr, hs⟩ := h
    subst hs
    refine Or.inl ⟨hMc, hMi, fun _ => ?_⟩
    exact runRouteMiddleware_fail_status env cfg _ _ _ hmw
  | true =>
    simp only [Bool.not_true, Bool.false_eq_true, if_false] at h
    split at h
    · simp only [Option.some.injEq, Prod.mk.injEq] at h
      obtain ⟨hr, hs⟩ := h
      subst hs
      exact Or.inl ⟨hMc, hMi, by simp [← hr]⟩
    · have h6c : (applyRouteDest env cfg route arr ks
          (applyRouteStatus route (applyRouteHeaders env route arr ks
            stM))).1.checkPhaseCounter = st.checkPhaseCounter := by
        rw [applyRouteDest_counter, applyRouteStatus_counter,
            applyRouteHeaders_counter, hMc]
      have h6i : (applyRouteDest env cfg route arr ks
          (applyRouteStatus route (applyRouteHeaders env route arr ks
            stM))).1.middlewareInvoked = stM.middlewareInvoked := by
        rw [applyRouteDest_invoked, applyRouteStatus_invoked,
            applyRouteHeaders_invoked]
      rcases checkRouteCheckFlow_cases cfg recur phase route _ _ _ _ h with
        ⟨hst, hr⟩ | ⟨ph, res, hres, hr, hst⟩
      · refine Or.inl ⟨?_, ?_, ?_⟩
        · rcases hst with he | he | he <;> rw [he] <;> simp [h6c]
        · rcases hst with he | he | he <;> rw [he] <;> simp [h6i, hMi]
        · rcases hr with hr | hr <;> (intro hcon; rw [hr] at hcon; cases hcon)
      · exact Or.inr ⟨ph, _, res, hres, hr, hst, h6c, by simp [h6i, hMi]⟩

theorem checkRouteGo_cases (env : Env) (cfg : RMConfig)
    (recur : VercelPhase → RMState → Option (CheckPhaseStatus × RMState))
    (phase : VercelPhase) (route : VercelSource) (st : RMState)
    (r : CheckRouteStatus) (st' : RMState)
    (h : checkRouteGo env cfg recur phase route st = some (r, st')) :
    (st'.checkPhaseCounter = st.checkPhaseCounter
      ∧ (st'.middlewareInvoked = st.middlewareInvoked ∨
          ∃ p, p ∉ st.middlewareInvoked ∧
            st'.middlewareInvoked = st.middlewareInvoked ++ [p])
      ∧ (r = .error → st'.status = some 500))
    ∨ (∃ ph s6 res, recur ph s6 = some res ∧ r = phaseToRoute res.1 ∧ st' = res.2
        ∧ s6.checkPhaseCounter = st.checkPhaseCounter
        ∧ (s6.middlewareInvoked = st.middlewareInvoked ∨
            ∃ p, p ∉ st.middlewareInvoked ∧
              s6.middlewareInvoked = st.middlewareInvoked ++ [p])) := by
  unfold checkRouteGo at h
  dsimp only at h
  split at h
  · simp only [Option.some.injEq, Prod.mk.injEq] at h
    obtain ⟨hr, hs⟩ := h
    subst hs
    exact Or.inl ⟨rfl, Or.inl rfl, by simp [← hr]⟩
  · rename_i res _
    split at h
    · rename_i hguard
      simp only [Option.some.injEq, Prod.mk.injEq] at h
      obtain ⟨hr, hs⟩ := h
      subst hs
      exact Or.inl ⟨rfl, Or.inl rfl, by simp [← hr]⟩
    · rename_i hguard
      have hnotin : ∀ p, { getLocaleFriendlyRoute cfg route phase with
          dest := res.routeDest : VercelSource }.middlewarePath = some p → p ≠ "" →
          p ∉ st.middlewareInvoked := by
        intro p hp hpne hmem
        apply hguard
        rw [hp]
        simp only [strTruthy, Option.getD_some, ne_eq, hpne, not_false_eq_true,
          decide_True, Bool.true_and]
        exact List.elem_eq_true_of_mem hmem
      rcases checkRouteApply_cases env cfg recur phase _ _ _ _ _ _ h with
        ⟨hc, hi, he⟩ | ⟨ph, s6, res2, hres, hr, hst, hc, hi⟩
      · refine Or.inl ⟨hc, ?_, he⟩
        rcases hi with hi | ⟨p, hp, hpne, happ⟩
        · exact Or.inl hi
        · exact Or.inr ⟨p, hnotin p hp hpne, happ⟩
      · refine Or.inr ⟨ph, s6, res2, hres, hr, hst, hc, ?_⟩
        rcases hi with hi | ⟨p, hp, hpne, happ⟩
        · exact Or.inl hi
        · exact Or.inr ⟨p, hnotin p hp hpne, happ⟩

/-!
Totality of one `checkRoute` evaluation given a total recursive entry, and
the case shape of the phase-decision tail.
-/

theorem continueDecision_isSome (route : VercelSource) (st : RMState) :
    (continueDecision route st).isSome = true := by
  unfold continueDecision
  repeat' split
  all_goals rfl

theorem checkRouteCheckFlow_isSome (cfg : RMConfig)
    (recur : VercelPhase → RMState → Option (CheckPhaseStatus × RMState))
    (phase : VercelPhase) (route : VercelSource) (st6 : RMState)
    (prevPath : String)
    (hrec : ∀ ph, (recur ph st6).isSome = true) :
    (checkRouteCheckFlow cfg recur phase route st6 prevPath).isSome = true := by
  unfold checkRouteCheckFlow
  repeat' split
  all_goals first
    | (rw [Option.isSome_map']; exact hrec _)
    | exact continueDecision_isSome _ _

theorem checkRouteApply_isSome (env : Env) (cfg : RMConfig)
    (recur : VercelPhase → RMState → Option (CheckPhaseStatus × RMState))
    (phase : VercelPhase) (route : VercelSource) (arr : List (Option String))
    (ks : List String) (st : RMState)
    (hrec : ∀ ph s, s.checkPhaseCounter = st.checkPhaseCounter →
      (recur ph s).isSome = true) :
    (checkRouteApply env cfg recur phase route arr ks st).isSome = true := by
  unfold checkRouteApply
  dsimp only
  rcases hmw : runRouteMiddleware env cfg
      (applyLocaleRedirects env cfg route (applyRouteOverrides route st))
      route.middlewarePath with ⟨b2, stM⟩
  have hMc : stM.checkPhaseCounter = st.checkPhaseCounter := by
    have := runRouteMiddleware_counter env cfg _ _ _ _ hmw
    rw [this, applyLocaleRedirects_counter, applyRouteOverrides_counter]
  cases b2 with
  | false => rfl
  | true =>
    simp only [Bool.not_true, Bool.false_eq_true, if_false]
    split
    · rfl
    · apply checkRouteCheckFlow_isSome
      intro ph
      apply hrec
      rw [applyRouteDest_counter, applyRouteStatus_counter,
          applyRouteHeaders_counter]
      exact hMc

theorem checkRouteGo_isSome (env : Env) (cfg : RMConfig)
    (recur : VercelPhase → RMState → Option (CheckPhaseStatus × RMState))
    (phase : VercelPhase) (route : VercelSource) (st : RMState)
    (hrec : ∀ ph s, s.checkPhaseCounter = st.checkPhaseCounter →
      (recur ph s).isSome = true) :
    (checkRouteGo env cfg recur phase route st).isSome = true := by
  unfold checkRouteGo
  dsimp only
  split
  · rfl
  · split
    · rfl
    · exact checkRouteApply_isSome env cfg recur phase _ _ _ st hrec

theorem localeStripGo_counter (cfg : RMConfig) (st : RMState) (ls : List String) :
    (localeStripGo cfg st ls).checkPhaseCounter = st.checkPhaseCounter := by
  obtain ⟨p, e⟩ := localeStripGo_eq cfg st ls
  rw [e]

theorem localeStripGo_invoked (cfg : RMConfig) (st : RMState) (ls : List String) :
    (localeStripGo cfg st ls).middlewareInvoked = st.middlewareInvoked := by
  obtain ⟨p, e⟩ := localeStripGo_eq cfg st ls
  rw [e]

theorem computePathExists_counter (cfg : RMConfig) (st : RMState) :
    (computePathExists cfg st).2.checkPhaseCounter = st.checkPhaseCounter := by
  obtain ⟨p, e⟩ := computePathExists_eq cfg st
  rw [e]

theorem computePathExists_invoked (cfg : RMConfig) (st : RMState) :
    (computePathExists cfg st).2.middlewareInvoked = st.middlewareInvoked := by
  obtain ⟨p, e⟩ := computePathExists_eq cfg st
  rw [e]

theorem phaseDecisionGo_cases (env : Env) (cfg : RMConfig)
    (recur : VercelPhase → RMState → Option (CheckPhaseStatus × RMState))
    (phase : VercelPhase) (sc : Bool) (st : RMState)
    (r : CheckPhaseStatus) (st' : RMState)
    (h : phaseDecisionGo env cfg recur phase sc st = some (r, st')) :
    (r = .done ∧ st' = st) ∨
      (∃ ph stC, recur ph stC = some (r, st')
        ∧ stC.checkPhaseCounter = st.checkPhaseCounter
        ∧ stC.middlewareInvoked = st.middlewareInvoked) := by
  unfold phaseDecisionGo at h
  dsimp only at h
  split at h
  · simp only [Option.some.injEq, Prod.mk.injEq] at h
    exact Or.inl ⟨h.1.symm, h.2.symm⟩
  · refine Or.inr ⟨_, _, h, ?_, ?_⟩
    · repeat' split
      all_goals simp only [computePathExists_counter]
      all_goals try simp only [localeStripGo_counter]
      all_goals rfl
    · repeat' split
      all_goals simp only [computePathExists_invoked]
      all_goals try simp only [localeStripGo_invoked]
      all_goals rfl

theorem phaseDecisionGo_isSome (env : Env) (cfg : RMConfig)
    (recur : VercelPhase → RMState → Option (CheckPhaseStatus × RMState))
    (phase : VercelPhase) (sc : Bool) (st : RMState)
    (hrec : ∀ ph s, s.checkPhaseCounter = st.checkPhaseCounter →
      (recur ph s).isSome = true) :
    (phaseDecisionGo env cfg recur phase sc st).isSome = true := by
  unfold phaseDecisionGo
  dsimp only
  split
  · rfl
  · apply hrec
    repeat' split
    all_goals simp only [computePathExists_counter]
    all_goals try simp only [localeStripGo_counter]
    all_goals rfl

/-!
Invariants of the per-phase route loop, generic in the recursive entry.
-/

theorem checkRoutesLoopGo_mono (env : Env) (cfg : RMConfig)
    (recur : VercelPhase → RMState → Option (CheckPhaseStatus × RMState))
    (phase : VercelPhase)
    (hrecMono : ∀ ph s res, recur ph s = some res →
      s.checkPhaseCounter ≤ res.2.checkPhaseCounter) :
    ∀ routes (st : RMState) ex st',
      checkRoutesLoopGo env cfg recur phase routes st = some (ex, st') →
      st.checkPhaseCounter ≤ st'.checkPhaseCounter := by
  intro routes
  induction routes with
  | nil =>
    intro st ex st' h
    unfold checkRoutesLoopGo at h
    simp only [Option.some.injEq, Prod.mk.injEq] at h
    rw [← h.2]
  | cons r rs ih =>
    intro st ex st' h
    unfold checkRoutesLoopGo at h
    cases hcr : checkRouteGo env cfg recur phase r st with
    | none => rw [hcr] at h; cases h
    | some res =>
      rw [hcr] at h
      obtain ⟨rr, st2⟩ := res
      have hle : st.checkPhaseCounter ≤ st2.checkPhaseCounter := by
        rcases checkRouteGo_cases env cfg recur phase r st rr st2 hcr with
          ⟨hc, _, _⟩ | ⟨ph, s6, res2, hres, _, hst, hc, _⟩
        · rw [hc]
        · rw [hst]
          calc st.checkPhaseCounter = s6.checkPhaseCounter := hc.symm
            _ ≤ res2.2.checkPhaseCounter := hrecMono _ _ _ hres
      cases rr with
      | error =>
        simp only [Option.some.injEq, Prod.mk.injEq] at h
        rw [← h.2]
        exact hle
      | done =>
        simp only [Option.some.injEq, Prod.mk.injEq] at h
        rw [← h.2]
        exact hle
      | skip => exact le_trans hle (ih st2 ex st' h)
      | next => exact le_trans hle (ih st2 ex st' h)

theorem checkRoutesLoopGo_error (env : Env) (cfg : RMConfig)
    (recur : VercelPhase → RMState → Option (CheckPhaseStatus × RMState))
    (phase : VercelPhase)
    (hrecErr : ∀ ph s st2, recur ph s = some (.error, st2) →
      st2.status = some 500) :
    ∀ routes (st : RMState) st',
      checkRoutesLoopGo env cfg recur phase routes st = some (.err, st') →
      st'.status = some 500 := by
  intro routes
  induction routes with
  | nil =>
    intro st st' h
    unfold checkRoutesLoopGo at h
    simp at h
  | cons r rs ih =>
    intro st st' h
    unfold checkRoutesLoopGo at h
    cases hcr : checkRouteGo env cfg recur phase r st with
    | none => rw [hcr] at h; cases h
    | some res =>
      rw [hcr] at h
      obtain ⟨rr, st2⟩ := res
      cases rr with
      | error =>
        simp only [Option.some.injEq, Prod.mk.injEq] at h
        rw [← h.2]
        rcases checkRouteGo_cases env cfg recur phase r st .error st2 hcr with
          ⟨_, _, he⟩ | ⟨ph, s6, res2, hres, hr, hst, _, _⟩
        · exact he rfl
        · cases hres2 : res2.1 with
          | done => rw [hres2] at hr; cases hr
          | error =>
            rw [hst]
            apply hrecErr ph s6
            rw [hres, ← hres2]
      | done => simp at h
      | skip => exact ih st2 st' h
      | next => exact ih st2 st' h

theorem checkRoutesLoopGo_nodup (env : Env) (cfg : RMConfig)
    (recur : VercelPhase → RMState → Option (CheckPhaseStatus × RMState))
    (phase : VercelPhase)
    (hrecNodup : ∀ ph s res, s.middlewareInvoked.Nodup → recur ph s = some res →
      res.2.middlewareInvoked.Nodup) :
    ∀ routes (st : RMState) ex st',
      checkRoutesLoopGo env cfg recur phase routes st = some (ex, st') →
      st.middlewareInvoked.Nodup → st'.middlewareInvoked.Nodup := by
  intro routes
  induction routes with
  | nil =>
    intro st ex st' h hnd
    unfold checkRoutesLoopGo at h
    simp only [Option.some.injEq, Prod.mk.injEq] at h
    rw [← h.2]
    exact hnd
  | cons r rs ih =>
    intro st ex st' h hnd
    unfold checkRoutesLoopGo at h
    cases hcr : checkRouteGo env cfg recur phase r st with
    | none => rw [hcr] at h; cases h
    | some res =>
      rw [hcr] at h
      obtain ⟨rr, st2⟩ := res
      have hnd2 : st2.middlewareInvoked.Nodup := by
        rcases checkRouteGo_cases env cfg recur phase r st rr st2 hcr with
          ⟨_, hi, _⟩ | ⟨ph, s6, res2, hres, _, hst, _, hi⟩
        · rcases hi with hi | ⟨p, hpnot, happ⟩
          · rw [hi]; exact hnd
          · rw [happ]; simp [List.nodup_append, hnd, hpnot]
        · rw [hst]
          apply hrecNodup _ _ _ _ hres
          rcases hi with hi | ⟨p, hpnot, happ⟩
          · rw [hi]; exact hnd
          · rw [happ]; simp [List.nodup_append, hnd, hpnot]
      cases rr with
      | error =>
        simp only [Option.some.injEq, Prod.mk.injEq] at h
        rw [← h.2]; exact hnd2
      | done =>
        simp only [Option.some.injEq, Prod.mk.injEq] at h
        rw [← h.2]; exact hnd2
      | skip => exact ih st2 ex st' h hnd2
      | next => exact ih st2 ex st' h hnd2

theorem checkRoutesLoopGo_isSome (env : Env) (cfg : RMConfig)
    (recur : VercelPhase → RMState → Option (CheckPhaseStatus × RMState))
    (phase : VercelPhase) (N : Nat)
    (hrecSome : ∀ ph s, s.checkPhaseCounter = N → (recur ph s).isSome = true) :
    ∀ routes (st : RMState), st.checkPhaseCounter = N →
      (checkRoutesLoopGo env cfg recur phase routes st).isSome = true := by
  intro routes
  induction routes with
  | nil => intro st hc; rfl
  | cons r rs ih =>
    intro st hc
    unfold checkRoutesLoopGo
    cases hcr : checkRouteGo env cfg recur phase r st with
    | none =>
      have := checkRouteGo_isSome env cfg recur phase r st
        (fun ph s hs => hrecSome ph s (hs.trans hc))
      rw [hcr] at this
      cases this
    | some res =>
      obtain ⟨rr, st2⟩ := res
      have hc2 : rr = .skip ∨ rr = .next → st2.checkPhaseCounter = N := by
        intro hrr
        rcases checkRouteGo_cases env cfg recur phase r st rr st2 hcr with
          ⟨hcEq, _, _⟩ | ⟨ph, s6, res2, hres, hr, hst, _, _⟩
        · rw [hcEq]; exact hc
        · exfalso
          rcases hrr with hrr | hrr <;> rw [hrr] at hr <;>
            cases hres2 : res2.1 <;> rw [hres2] at hr <;> cases hr
      cases rr with
      | error => rfl
      | done => rfl
      | skip => exact ih st2 (hc2 (Or.inl rfl))
      | next => exact ih st2 (hc2 (Or.inr rfl))

/-!
The four master facts about `checkPhase`, by induction on the fuel.
-/

theorem checkPhase_mono (env : Env) (cfg : RMConfig) :
    ∀ (f : Nat) (ph : VercelPhase) (st : RMState) res,
      checkPhase env cfg f ph st = some res →
      st.checkPhaseCounter ≤ res.2.checkPhaseCounter := by
  intro f
  induction f with
  | zero => intro ph st res h; cases h
  | succ g ih =>
    intro ph st res h
    unfold checkPhase checkPhaseGo at h
    split at h
    · simp only [Option.some.injEq] at h
      rw [← h]
      simp
    · dsimp only at h
      cases hl : checkRoutesLoopGo env cfg (checkPhase env cfg g) ph
          (cfg.routes ph)
          { st with checkPhaseCounter := st.checkPhaseCounter + 1,
                    middlewareInvoked := [] } with
      | none => rw [hl] at h; cases h
      | some lres =>
        rw [hl] at h
        obtain ⟨ex, st2⟩ := lres
        have hl2 : st.checkPhaseCounter + 1 ≤ st2.checkPhaseCounter :=
          checkRoutesLoopGo_mono env cfg _ ph ih _ _ _ _ hl
        cases ex with
        | err =>
          simp only [Option.some.injEq] at h
          rw [← h]
          dsimp only
          omega
        | exit sc =>
          obtain ⟨r0, st'0⟩ := res
          dsimp only
          rcases phaseDecisionGo_cases env cfg _ ph sc st2 r0 st'0 h with
            ⟨_, he⟩ | ⟨ph2, stC, hrec2, hcEq, _⟩
          · rw [he]; omega
          · have h2 := ih ph2 stC _ hrec2
            dsimp only at h2
            omega

theorem checkPhase_error500 (env : Env) (cfg : RMConfig) :
    ∀ (f : Nat) (ph : VercelPhase) (st st' : RMState),
      checkPhase env cfg f ph st = some (.error, st') →
      st'.status = some 500 := by
  intro f
  induction f with
  | zero => intro ph st st' h; cases h
  | succ g ih =>
    intro ph st st' h
    unfold checkPhase checkPhaseGo at h
    split at h
    · simp only [Option.some.injEq, Prod.mk.injEq] at h
      rw [← h.2]
    · dsimp only at h
      cases hl : checkRoutesLoopGo env cfg (checkPhase env cfg g) ph
          (cfg.routes ph)
          { st with checkPhaseCounter := st.checkPhaseCounter + 1,
                    middlewareInvoked := [] } with
      | none => rw [hl] at h; cases h
      | some lres =>
        rw [hl] at h
        obtain ⟨ex, st2⟩ := lres
        cases ex with
        | err =>
          simp only [Option.some.injEq, Prod.mk.injEq] at h
          rw [← h.2]
          exact checkRoutesLoopGo_error env cfg _ ph ih _ _ _ hl
        | exit sc =>
          rcases phaseDecisionGo_cases env cfg _ ph sc st2 .error st' h with
            ⟨hcon, _⟩ | ⟨ph2, stC, hrec2, _, _⟩
          · cases hcon
          · exact ih ph2 stC st' hrec2

theorem checkPhase_nodup (env : Env) (cfg : RMConfig) :
    ∀ (f : Nat) (ph : VercelPhase) (st : RMState) (r : CheckPhaseStatus)
      (st' : RMState),
      checkPhase env cfg f ph st = some (r, st') →
      st.middlewareInvoked.Nodup → st'.middlewareInvoked.Nodup := by
  intro f
  induction f with
  | zero => intro ph st r st' h; cases h
  | succ g ih =>
    intro ph st r st' h hnd
    unfold checkPhase checkPhaseGo at h
    split at h
    · simp only [Option.some.injEq, Prod.mk.injEq] at h
      rw [← h.2]
      exact hnd
    · dsimp only at h
      cases hl : checkRoutesLoopGo env cfg (checkPhase env cfg g) ph
          (cfg.routes ph)
          { st with checkPhaseCounter := st.checkPhaseCounter + 1,
                    middlewareInvoked := [] } with
      | none => rw [hl] at h; cases h
      | some lres =>
        rw [hl] at h
        obtain ⟨ex, st2⟩ := lres
        have hnd2 : st2.middlewareInvoked.Nodup :=
          checkRoutesLoopGo_nodup env cfg _ ph
            (fun ph2 s res2 hs hres2 => ih ph2 s res2.1 res2.2 hres2 hs)
            _ _ _ _ hl List.nodup_nil
        cases ex with
        | err =>
          simp only [Option.some.injEq, Prod.mk.injEq] at h
          rw [← h.2]
          exact hnd2
        | exit sc =>
          rcases phaseDecisionGo_cases env cfg _ ph sc st2 r st' h with
            ⟨_, he⟩ | ⟨ph2, stC, hrec2, _, hiEq⟩
          · rw [he]; exact hnd2
          · exact ih ph2 stC r st' hrec2 (by rw [hiEq]; exact hnd2)

theorem checkPhase_isSome (env : Env) (cfg : RMConfig) :
    ∀ (f : Nat) (ph : VercelPhase) (st : RMState),
      51 - st.checkPhaseCounter < f →
      (checkPhase env cfg f ph st).isSome = true := by
  intro f
  induction f with
  | zero => intro ph st h; omega
  | succ g ih =>
    intro ph st h
    unfold checkPhase checkPhaseGo
    split
    · rfl
    · rename_i hguard
      have hc : st.checkPhaseCounter < 50 := by omega
      have hg : 51 - (st.checkPhaseCounter + 1) < g := by omega
      dsimp only
      cases hl : checkRoutesLoopGo env cfg (checkPhase env cfg g) ph
          (cfg.routes ph)
          { st with checkPhaseCounter := st.checkPhaseCounter + 1,
                    middlewareInvoked := [] } with
      | none =>
        have := checkRoutesLoopGo_isSome env cfg _ ph (st.checkPhaseCounter + 1)
          (fun ph2 s hs => ih ph2 s (by omega)) (cfg.routes ph)
          { st with checkPhaseCounter := st.checkPhaseCounter + 1,
                    middlewareInvoked := [] } rfl
        rw [hl] at this
        cases this
      | some lres =>
        obtain ⟨ex, st2⟩ := lres
        have hl2 : st.checkPhaseCounter + 1 ≤ st2.checkPhaseCounter :=
          checkRoutesLoopGo_mono env cfg _ ph (checkPhase_mono env cfg g)
            _ _ _ _ hl
        cases ex with
        | err => rfl
        | exit sc =>
          apply phaseDecisionGo_isSome
          intro ph2 s hs
          apply ih
          omega

theorem checkRouteApply_fail (env : Env) (cfg : RMConfig)
    (recur : VercelPhase → RMState → Option (CheckPhaseStatus × RMState))
    (phase : VercelPhase) (route : VercelSource) (arr : List (Option String))
    (ks : List String) (st : RMState)
    (hfail : (runRouteMiddleware env cfg
        (applyLocaleRedirects env cfg route (applyRouteOverrides route st))
        route.middlewarePath).1 = false) :
    checkRouteApply env cfg recur phase route arr ks st =
      some (.error, (runRouteMiddleware env cfg
        (applyLocaleRedirects env cfg route (applyRouteOverrides route st))
        route.middlewarePath).2) := by
  unfold checkRouteApply
  dsimp only
  rw [hfail]
  rfl

/-!
Claim theorems.
-/

theorem checkPhase_succ (env : Env) (cfg : RMConfig) (f : Nat)
    (ph : VercelPhase) (st : RMState) :
    checkPhase env cfg (f + 1) ph st =
      checkPhaseGo env cfg (checkPhase env cfg f) ph st := rfl

/-- C1: for every route table and request, evaluation terminates: the phase
counter is incremented on every entry to `checkPhase` and once it reaches the
guard the call sets the pending status to 500 and returns `error` instead of
recursing; with fuel covering the at most 51 admissible phase entries the
fuel never runs out, so in particular a route table whose `check`-marked
rules rewrite cyclically terminates with status 500 rather than looping. -/
theorem claimC1_loopGuard_terminates (env : Env) (cfg : RMConfig) (fuel : Nat)
    (phase : VercelPhase) (st : RMState)
    (h : 51 - st.checkPhaseCounter < fuel) :
    (checkPhase env cfg fuel phase st).isSome = true
    ∧ (50 ≤ st.checkPhaseCounter →
        checkPhase env cfg fuel phase st =
          some (.error, { st with checkPhaseCounter := st.checkPhaseCounter + 1,
                                  status := some 500 })) := by
  refine ⟨checkPhase_isSome env cfg fuel phase st h, fun hge => ?_⟩
  have hf : fuel ≠ 0 := by omega
  obtain ⟨g, rfl⟩ := Nat.exists_eq_succ_of_ne_zero hf
  unfold checkPhase checkPhaseGo
  rw [if_pos hge]

set_option maxRecDepth 10000

/-- Witness for C1: the cyclic swap table terminates; entered at the guard it
reports 500/`error`; and a full run from counter 0 ends as `error` with
status 500. -/
theorem claimC1_witness :
    ((51 - stA49.checkPhaseCounter < 3)
      ∧ (checkPhase env0 cfgLoop 3 .none stA49).isSome = true)
    ∧ ((51 - stA50.checkPhaseCounter < 2)
      ∧ checkPhase env0 cfgLoop 2 .filesystem stA50 =
          some (.error, { stA50 with
            checkPhaseCounter := stA50.checkPhaseCounter + 1,
            status := some 500 }))
    ∧ (run env0 cfgLoop .none stA).map (fun r => (r.1, r.2.status)) =
        some (.error, some 500) := by
  refine ⟨⟨by decide, (claimC1_loopGuard_terminates env0 cfgLoop 3 .none stA49
    (by decide)).1⟩,
    ⟨by decide, (claimC1_loopGuard_terminates env0 cfgLoop 2 .filesystem stA50
      (by decide)).2 (by decide)⟩, by decide⟩

/-- C9: `run('none')` is a function of its input state only — two runs from
states that agree on all fields except the residue a previous run leaves in
the phase counter and the per-phase middleware-invoked list (both of which
are reset before any route is examined) produce identical results. -/
theorem claimC9_run_deterministic (env : Env) (cfg : RMConfig)
    (phase : VercelPhase) (st : RMState) (c1 c2 : Nat) (m1 m2 : List String) :
    run env cfg phase { st with checkPhaseCounter := c1, middlewareInvoked := m1 }
      = run env cfg phase
          { st with checkPhaseCounter := c2, middlewareInvoked := m2 } := by
  cases st
  unfold run
  rw [show (52 : Nat) = 51 + 1 from rfl, checkPhase_succ, checkPhase_succ]
  unfold checkPhaseGo
  dsimp only
  rw [if_neg (by omega : ¬(50 ≤ 0)), if_neg (by omega : ¬(50 ≤ 0))]

/-- C10 (amended): whenever `checkPhase` returns `error` the pending status
is exactly 500; `run` returning `error` also has status 500 unless a
`location` header is pending in the normal collection, in which case the
final redirect promotion rewrites the status to 307. -/
theorem claimC10_error_status (env : Env) (cfg : RMConfig) :
    (∀ f ph st st', checkPhase env cfg f ph st = some (.error, st') →
      st'.status = some 500)
    ∧ (∀ ph st st', run env cfg ph st = some (.error, st') →
        st'.status = some 500 ∨
          (hhas st'.normalHeaders "location" = true ∧ st'.status = some 307)) := by
  refine ⟨fun f ph st st' h => checkPhase_error500 env cfg f ph st st' h,
    fun ph st st' h => ?_⟩
  unfold run at h
  cases hc : checkPhase env cfg 52 ph { st with checkPhaseCounter := 0 } with
  | none => rw [hc] at h; cases h
  | some res =>
    rw [hc] at h
    obtain ⟨r0, st0'⟩ := res
    simp only [Option.some.injEq, Prod.mk.injEq] at h
    obtain ⟨hr, hs⟩ := h
    rw [hr] at hc
    have h500 : st0'.status = some 500 :=
      checkPhase_error500 env cfg 52 ph _ st0' hc
    rw [← hs]
    unfold promoteLocation
    split
    · rename_i hcond
      right
      refine ⟨?_, rfl⟩
      simp only [Bool.and_eq_true] at hcond
      exact hcond.1
    · left
      exact h500

/-- Witness for C10 (amended): the locale-then-missing-middleware run ends in
`error` with a pending `location` header and status 307. -/
theorem claimC10_witness :
    run env0 cfgLocErr .none stAl = some (.error, stC10res)
    ∧ (stC10res.status = some 500 ∨
        (hhas stC10res.normalHeaders "location" = true
          ∧ stC10res.status = some 307)) :=
  ⟨by decide, (claimC10_error_status env0 cfgLocErr).2 .none stAl stC10res
    (by decide)⟩

/-- Counterexample for C10 as frozen: a locale redirect sets a `location`
header before a missing middleware turns the request into an `error`; the
final promotion in `run` rewrites the pending 500 into a 307, so `run`
returns `error` with status 307, not 500. -/
theorem claimC10_cex :
    (run env0 cfgLocErr .none stAl).map (fun r => (r.1, r.2.status)) =
      some (.error, some 307)
    ∧ (some 307 : Option Nat) ≠ some 500 := ⟨by decide, by decide⟩

theorem getLocaleFriendlyRoute_middlewarePath (cfg : RMConfig)
    (r : VercelSource) (ph : VercelPhase) :
    (getLocaleFriendlyRoute cfg r ph).middlewarePath = r.middlewarePath := by
  unfold getLocaleFriendlyRoute
  repeat' split
  all_goals rfl

theorem not_contains_of_not_mem (l : List String) (p : String)
    (h : p ∉ l) : l.contains p = false := by
  rw [← Bool.not_eq_true]
  intro hcon
  exact h (List.mem_of_elem_eq_true hcon)

/-- C2: a matched rule whose `middlewarePath` is absent from the artifact map
or not tagged `middleware` makes `runRouteMiddleware` set status 500 and
fail, the enclosing `checkRoute` returns `error` without applying the rule's
headers, status or destination (the result state is exactly the
overrides-and-locale-redirects state with status 500), and the phase loop
aborts with that state. -/
theorem claimC2_missing_middleware_error (env : Env) (cfg : RMConfig)
    (recur : VercelPhase → RMState → Option (CheckPhaseStatus × RMState))
    (phase : VercelPhase) (rawRoute : VercelSource) (st : RMState)
    (res : RouteMatchRes) (p : String) (rest : List VercelSource)
    (route' : VercelSource) (st2 : RMState)
    (hm : checkRouteMatch env cfg st (getLocaleFriendlyRoute cfg rawRoute phase)
        (phase = .error) (phase = .rewrite) = some res)
    (hp : rawRoute.middlewarePath = some p) (hpne : p ≠ "")
    (hnin : p ∉ st.middlewareInvoked)
    (hmiss : ∀ item, lookupOutput cfg p = some item → item.type ≠ .middleware)
    (hroute : route' = { getLocaleFriendlyRoute cfg rawRoute phase with
                         dest := res.routeDest })
    (hst2 : st2 = applyLocaleRedirects env cfg route'
        (applyRouteOverrides route' st)) :
    runRouteMiddleware env cfg st2 rawRoute.middlewarePath
        = (false, { st2 with status := some 500 })
    ∧ checkRouteGo env cfg recur phase rawRoute st =
        some (.error, { st2 with status := some 500 })
    ∧ checkRoutesLoopGo env cfg recur phase (rawRoute :: rest) st =
        some (.err, { st2 with status := some 500 }) := by
  subst hst2
  subst hroute
  have hmpx : ({ getLocaleFriendlyRoute cfg rawRoute phase with
      dest := res.routeDest } : VercelSource).middlewarePath = some p := by
    show (getLocaleFriendlyRoute cfg rawRoute phase).middlewarePath = some p
    rw [getLocaleFriendlyRoute_middlewarePath, hp]
  have hrmP : ∀ (s : RMState), runRouteMiddleware env cfg s (some p) =
      (false, { s with status := some 500 }) := by
    intro s
    unfold runRouteMiddleware
    dsimp only
    rw [if_neg hpne]
    cases hl : lookupOutput cfg p with
    | none => rfl
    | some item =>
      dsimp only
      rw [if_pos (hmiss item hl)]
  have hgo : checkRouteGo env cfg recur phase rawRoute st =
      some (.error,
        { applyLocaleRedirects env cfg
            { getLocaleFriendlyRoute cfg rawRoute phase with
              dest := res.routeDest }
            (applyRouteOverrides
              { getLocaleFriendlyRoute cfg rawRoute phase with
                dest := res.routeDest } st) with status := some 500 }) := by
    unfold checkRouteGo
    dsimp only
    rw [hm]
    dsimp only
    rw [if_neg (by
      rw [getLocaleFriendlyRoute_middlewarePath, hp]
      simp only [strTruthy, ne_eq, hpne, not_false_eq_true, decide_True,
        Bool.true_and, Option.getD_some]
      rw [not_contains_of_not_mem _ _ hnin]
      exact Bool.false_ne_true)]
    have happ := checkRouteApply_fail env cfg recur phase
      { getLocaleFriendlyRoute cfg rawRoute phase with dest := res.routeDest }
      res.matchArr res.captureGroupKeys st
    rw [hmpx] at happ
    rw [happ (by rw [hrmP]), hrmP]
  refine ⟨by rw [hp]; exact hrmP _, hgo, ?_⟩
  unfold checkRoutesLoopGo
  rw [hgo]

set_option maxRecDepth 12000

/-- Witness for C2: a matched rule naming `/mw-missing` (absent from the
empty artifact map) errors out with status 500 at every level. -/
theorem claimC2_witness :
    checkRouteMatch env0 cfgLocErr stAl
        (getLocaleFriendlyRoute cfgLocErr locMwRoute .none)
        (VercelPhase.none = .error) (VercelPhase.none = .rewrite) =
        some ⟨[some "/x"], [], none⟩
    ∧ locMwRoute.middlewarePath = some "/mw-missing"
    ∧ ("/mw-missing" : String) ≠ ""
    ∧ "/mw-missing" ∉ stAl.middlewareInvoked
    ∧ checkRouteGo env0 cfgLocErr (checkPhase env0 cfgLocErr 5) .none
        locMwRoute stAl =
        some (.error,
          { applyLocaleRedirects env0 cfgLocErr
              { getLocaleFriendlyRoute cfgLocErr locMwRoute .none with
                dest := (⟨[some "/x"], [], none⟩ : RouteMatchRes).routeDest }
              (applyRouteOverrides
                { getLocaleFriendlyRoute cfgLocErr locMwRoute .none with
                  dest := (⟨[some "/x"], [], none⟩ : RouteMatchRes).routeDest }
                stAl) with status := some 500 }) := by
  refine ⟨by decide, by decide, by decide, by decide, ?_⟩
  exact (claimC2_missing_middleware_error env0 cfgLocErr
    (checkPhase env0 cfgLocErr 5) .none locMwRoute stAl
    ⟨[some "/x"], [], none⟩ "/mw-missing" [] _ _ (by decide) (by decide)
    (by decide) (by decide) (by intro item h; cases h) rfl rfl).2.1

/-- C7: no middleware is invoked twice within one phase pass: a matching rule
naming an already-recorded middleware path is skipped with the state left
untouched; the phase route loop preserves duplicate-freeness of the recorded
list (each invocation appends a path not yet recorded); and every entry to
`checkPhase` below the loop guard runs its route loop on a freshly emptied
recorded list. -/
theorem claimC7_middleware_once :
    (∀ (env : Env) (cfg : RMConfig) recur (phase : VercelPhase)
        (rawRoute : VercelSource) (st : RMState) (res : RouteMatchRes)
        (p : String),
      checkRouteMatch env cfg st (getLocaleFriendlyRoute cfg rawRoute phase)
          (phase = .error) (phase = .rewrite) = some res →
      rawRoute.middlewarePath = some p → p ≠ "" →
      p ∈ st.middlewareInvoked →
      checkRouteGo env cfg recur phase rawRoute st = some (.skip, st))
    ∧ (∀ (env : Env) (cfg : RMConfig) (f : Nat) (phase : VercelPhase)
        routes (st : RMState) ex st',
        checkRoutesLoopGo env cfg (checkPhase env cfg f) phase routes st =
          some (ex, st') →
        st.middlewareInvoked.Nodup → st'.middlewareInvoked.Nodup)
    ∧ (∀ (env : Env) (cfg : RMConfig) (f : Nat) (phase : VercelPhase)
        (st : RMState) r st',
        checkPhase env cfg f phase st = some (r, st') →
        st.middlewareInvoked.Nodup → st'.middlewareInvoked.Nodup)
    ∧ (∀ (env : Env) (cfg : RMConfig) recur (phase : VercelPhase)
        (st : RMState), st.checkPhaseCounter < 50 →
        checkPhaseGo env cfg recur phase st =
          (match checkRoutesLoopGo env cfg recur phase (cfg.routes phase)
              { st with checkPhaseCounter := st.checkPhaseCounter + 1,
                        middlewareInvoked := [] } with
            | none => none
            | some (.err, st2) => some (.error, st2)
            | some (.exit sc, st2) =>
              phaseDecisionGo env cfg recur phase sc st2)) := by
  refine ⟨?_, ?_, ?_, ?_⟩
  · intro env cfg recur phase rawRoute st res p hm hp hpne hmem
    unfold checkRouteGo
    dsimp only
    rw [hm]
    dsimp only
    rw [if_pos]
    rw [show ({ getLocaleFriendlyRoute cfg rawRoute phase with
          dest := res.routeDest } : VercelSource).middlewarePath
        = some p from by rw [getLocaleFriendlyRoute_middlewarePath, hp]]
    simp only [strTruthy, ne_eq, hpne, not_false_eq_true, decide_True,
      Bool.true_and, Option.getD_some]
    exact List.elem_eq_true_of_mem hmem
  · intro env cfg f phase routes st ex st' h hnd
    exact checkRoutesLoopGo_nodup env cfg _ phase
      (fun ph2 s res2 hs hres2 =>
        checkPhase_nodup env cfg f ph2 s res2.1 res2.2 hres2 hs)
      routes st ex st' h hnd
  · intro env cfg f phase st r st' h hnd
    exact checkPhase_nodup env cfg f phase st r st' h hnd
  · intro env cfg recur phase st hlt
    unfold checkPhaseGo
    rw [if_neg (by omega)]

/-- Witness for C7: the matching `/mw` rule is skipped (state untouched) when
`/mw` is already recorded; a concrete loop run keeps the recorded list
duplicate-free; and the below-guard unfolding holds at the fresh state. -/
theorem claimC7_witness :
    checkRouteMatch env0 cfg0 stMw (getLocaleFriendlyRoute cfg0 mwRoute .none)
        (VercelPhase.none = .error) (VercelPhase.none = .rewrite) =
        some ⟨[some "/x"], [], none⟩
    ∧ mwRoute.middlewarePath = some "/mw"
    ∧ ("/mw" : String) ≠ ""
    ∧ "/mw" ∈ stMw.middlewareInvoked
    ∧ checkRouteGo env0 cfg0 (checkPhase env0 cfg0 5) .none mwRoute stMw =
        some (.skip, stMw)
    ∧ (checkRoutesLoopGo env0 cfg0 (checkPhase env0 cfg0 5) .none [mwRoute]
        stMw = some (.exit true, stMw) →
       stMw.middlewareInvoked.Nodup → stMw.middlewareInvoked.Nodup) := by
  refine ⟨by decide, by decide, by decide, by decide, ?_, ?_⟩
  · exact claimC7_middleware_once.1 env0 cfg0 (checkPhase env0 cfg0 5) .none
      mwRoute stMw ⟨[some "/x"], [], none⟩ "/mw" (by decide) (by decide)
      (by decide) (by decide)
  · intro h hnd
    exact claimC7_middleware_once.2.1 env0 cfg0 5 .none [mwRoute] stMw
      (.exit true) stMw h hnd

/-!
Canonicity of header collections and the final normal/important combination.
-/

theorem toNat_ofNat_valid (n : Nat) (h : n.isValidChar) :
    (Char.ofNat n).toNat = n := by
  unfold Char.ofNat
  rw [dif_pos h]
  rfl

theorem toLower_idem (c : Char) : c.toLower.toLower = c.toLower := by
  unfold Char.toLower
  by_cases h : c.toNat ≥ 65 ∧ c.toNat ≤ 90
  · rw [if_pos h]
    have hv : (c.toNat + 32).isValidChar := by
      left
      have := h.2
      omega
    rw [toNat_ofNat_valid _ hv]
    rw [if_neg (by omega)]
  · rw [if_neg h, if_neg h]

theorem hkey_idem (k : String) : hkey (hkey k) = hkey k := by
  cases k with
  | mk l =>
    show (⟨(l.map Char.toLower).map Char.toLower⟩ : String) = ⟨l.map Char.toLower⟩
    rw [List.map_map]
    congr 1
    apply List.map_congr_left
    intro c _
    exact toLower_idem c

theorem hget_key_eq (h : HeadersL) (k k' : String) (he : hkey k = hkey k') :
    hget h k = hget h k' := by
  unfold hget
  rw [he]

theorem mem_keys_hset (h : HeadersL) (k v x : String)
    (hx : x ∈ (hset h k v).map Prod.fst) :
    x ∈ h.map Prod.fst ∨ x = hkey k := by
  induction h with
  | nil =>
    simp only [hset, List.map_cons, List.map_nil, List.mem_singleton] at hx
    exact Or.inr hx
  | cons kv t ih =>
    obtain ⟨k0, v0⟩ := kv
    rw [hset_cons] at hx
    by_cases hk : k0 = hkey k
    · rw [if_pos hk] at hx
      simp only [List.map_cons, List.mem_cons] at hx
      rcases hx with hx | hx
      · exact Or.inl (by simp [hx])
      · exact Or.inl (by simp [hx])
    · rw [if_neg hk] at hx
      simp only [List.map_cons, List.mem_cons] at hx
      rcases hx with hx | hx
      · exact Or.inl (by simp [hx])
      · rcases ih hx with h1 | h1
        · exact Or.inl (by simp [h1])
        · exact Or.inr h1

theorem hset_canon (k v : String) (h : HeadersL) (hc : HCanon h) :
    HCanon (hset h k v) := by
  induction h with
  | nil =>
    refine ⟨?_, ?_⟩
    · intro kv hkv
      simp only [hset, List.mem_singleton] at hkv
      rw [hkv]
      exact hkey_idem k
    · simp [hset]
  | cons kv t ih =>
    obtain ⟨k0, v0⟩ := kv
    obtain ⟨hfix, hnd⟩ := hc
    have hct : HCanon t := ⟨fun kv hkv => hfix kv (List.mem_cons_of_mem _ hkv),
      (List.nodup_cons.mp hnd).2⟩
    rw [hset_cons]
    by_cases hk : k0 = hkey k
    · rw [if_pos hk]
      refine ⟨?_, ?_⟩
      · intro kv hkv
        rcases List.mem_cons.mp hkv with hkv | hkv
        · rw [hkv]
          exact hfix (k0, v0) (List.mem_cons_self _ _)
        · exact hfix kv (List.mem_cons_of_mem _ hkv)
      · simpa using hnd
    · rw [if_neg hk]
      obtain ⟨hfix2, hnd2⟩ := ih hct
      refine ⟨?_, ?_⟩
      · intro kv hkv
        rcases List.mem_cons.mp hkv with hkv | hkv
        · rw [hkv]
          exact hfix (k0, v0) (List.mem_cons_self _ _)
        · exact hfix2 kv hkv
      · rw [List.map_cons, List.nodup_cons]
        refine ⟨?_, hnd2⟩
        intro hmem
        rcases mem_keys_hset t k v k0 hmem with h1 | h1
        · exact (List.nodup_cons.mp hnd).1 h1
        · exact hk h1

theorem applyHeaders_canon (env : Env)
    (src : List (String × String))
    (pcre : Option (List (Option String) × List String)) :
    ∀ t, HCanon t → HCanon (applyHeaders env t src pcre) := by
  induction src with
  | nil => intro t ht; exact ht
  | cons kv rest ih =>
    intro t ht
    exact ih _ (hset_canon _ _ _ ht)

theorem hget_finalHeaders_frozen (k : String) :
    ∀ (i n : HeadersL), (∀ kv ∈ i, hkey kv.1 ≠ hkey k) →
      hget (finalHeaders n i) k = hget n k := by
  intro i
  induction i with
  | nil => intro n _; rfl
  | cons kv t ih =>
    intro n hne
    obtain ⟨k0, v0⟩ := kv
    show hget (finalHeaders (hset n k0 v0) t) k = hget n k
    rw [ih _ (fun kv hkv => hne kv (List.mem_cons_of_mem _ hkv))]
    exact hget_hset_ne n k k0 v0
      (fun h => hne (k0, v0) (List.mem_cons_self _ _) h.symm)

theorem hget_finalHeaders_of_important :
    ∀ (i n : HeadersL) (k v : String), HCanon i → hget i k = some v →
      hget (finalHeaders n i) k = some v := by
  intro i
  induction i with
  | nil => intro n k v _ hg; cases hg
  | cons kv t ih =>
    intro n k v hc hg
    obtain ⟨k0, v0⟩ := kv
    obtain ⟨hfix, hnd⟩ := hc
    rw [hget_cons] at hg
    show hget (finalHeaders (hset n k0 v0) t) k = some v
    by_cases hk : k0 = hkey k
    · rw [if_pos hk] at hg
      have hfreeze : ∀ kv ∈ t, hkey kv.1 ≠ hkey k := by
        intro kv hkv hcon
        have h1 : hkey kv.1 = kv.1 := hfix kv (List.mem_cons_of_mem _ hkv)
        have h2 : kv.1 ≠ k0 := by
          intro h3
          exact (List.nodup_cons.mp hnd).1 (List.mem_map.mpr ⟨kv, hkv, h3⟩)
        exact h2 (by rw [← h1, hcon, ← hk])
      rw [hget_finalHeaders_frozen k t _ hfreeze]
      have hke : hkey k = hkey k0 := by rw [hk, hkey_idem]
      rw [hget_key_eq _ k k0 hke, hget_hset_self]
      rw [← hg]
    · rw [if_neg hk] at hg
      exact ih _ k v ⟨fun kv hkv => hfix kv (List.mem_cons_of_mem _ hkv),
        (List.nodup_cons.mp hnd).2⟩ hg

/-- C3: a matched rule's capture-substituted headers are merged into the
normal collection, and into the important collection exactly when the rule is
marked `important`; on the final combination the important collection wins,
so an important `x-test: a` followed by a later non-important `x-test: b`
yields a final `x-test: a`. -/
theorem claimC3_important_header_precedence (env : Env)
    (r1 r2 : VercelSource) (a1 a2 : List (Option String)) (k1 k2 : List String)
    (st : RMState) (hs1 hs2 : List (String × String)) (key v : String)
    (st1 st2 : RMState)
    (h1 : r1.headers = some hs1) (himp1 : r1.important = some true)
    (h2 : r2.headers = some hs2) (himp2 : r2.important ≠ some true)
    (hcanonI : HCanon st.importantHeaders)
    (hst1 : st1 = applyRouteHeaders env r1 a1 k1 st)
    (hst2 : st2 = applyRouteHeaders env r2 a2 k2 st1) :
    st1.normalHeaders = applyHeaders env st.normalHeaders hs1 (some (a1, k1))
    ∧ st1.importantHeaders =
        applyHeaders env st.importantHeaders hs1 (some (a1, k1))
    ∧ st2.normalHeaders = applyHeaders env st1.normalHeaders hs2 (some (a2, k2))
    ∧ st2.importantHeaders = st1.importantHeaders
    ∧ (hget st2.importantHeaders key = some v →
        hget (finalHeaders st2.normalHeaders st2.importantHeaders) key = some v) := by
  subst hst2
  subst hst1
  unfold applyRouteHeaders
  rw [h1, h2]
  dsimp only
  rw [if_pos himp1, if_neg himp2]
  refine ⟨rfl, rfl, rfl, rfl, ?_⟩
  intro hg
  exact hget_finalHeaders_of_important _ _ key v
    (applyHeaders_canon env hs1 (some (a1, k1)) st.importantHeaders hcanonI) hg

/-- Witness for C3: the important `x-test: a` rule followed by the
non-important `x-test: b` rule yields final `x-test: a`. -/
theorem claimC3_witness :
    hdrRoute1.headers = some [("x-test", "a")]
    ∧ hdrRoute1.important = some true
    ∧ hdrRoute2.headers = some [("x-test", "b")]
    ∧ hdrRoute2.important ≠ some true
    ∧ hget (applyRouteHeaders env0 hdrRoute2 [some "/x"] []
          (applyRouteHeaders env0 hdrRoute1 [some "/x"] [] st0)).importantHeaders
        "x-test" = some "a"
    ∧ hget
        (finalHeaders
          (applyRouteHeaders env0 hdrRoute2 [some "/x"] []
            (applyRouteHeaders env0 hdrRoute1 [some "/x"] [] st0)).normalHeaders
          (applyRouteHeaders env0 hdrRoute2 [some "/x"] []
            (applyRouteHeaders env0 hdrRoute1 [some "/x"] [] st0)).importantHeaders)
        "x-test" = some "a" := by
  refine ⟨by decide, by decide, by decide, by decide, by decide, ?_⟩
  exact (claimC3_important_header_precedence env0 hdrRoute1 hdrRoute2
    [some "/x"] [some "/x"] [] [] st0 [("x-test", "a")] [("x-test", "b")]
    "x-test" "a" _ _ (by decide) (by decide) (by decide) (by decide)
    ⟨by simp [st0], by simp [st0]⟩ rfl rfl).2.2.2.2 (by decide)

/-- C4: for an eligible rule with a `locale.redirect` table and no pending
`location` header, the candidate list concatenates cookie-derived locales
before accept-language-derived ones; the first configured (non-empty)
redirect target decides: if the current path does not already start with it,
a `location` header and pending status 307 are set, otherwise nothing
changes. -/
theorem claimC4_locale_redirect (env : Env) (cfg : RMConfig)
    (route : VercelSource) (st : RMState) (lc : VercelLocale)
    (rtab : List (String × String)) (cookieValue : String)
    (cand : List String)
    (hloc : route.locale = some lc) (hred : lc.redirect = some rtab)
    (helig : srcIsRegex route.src = true ∨ route.src = st.path)
    (hnoloc : hhas st.normalHeaders "location" = false)
    (hcv : cookieValue = (match lc.cookie with
      | some cn => if cn = "" then "" else (cfg.cookies.lookup cn).getD ""
      | none => ""))
    (hcand : cand = (env.parseAcceptLanguage cookieValue ++
        env.parseAcceptLanguage
          ((hget st.reqHeaders "accept-language").getD "")).filterMap
      (fun l => match rtab.lookup l with
        | some v => if v = "" then none else some v
        | none => none)) :
    (∀ rv, cand.head? = some rv → sStartsWith st.path rv = false →
      applyLocaleRedirects env cfg route st =
        { st with normalHeaders := hset st.normalHeaders "location" rv,
                  status := some 307 })
    ∧ (∀ rv, cand.head? = some rv → sStartsWith st.path rv = true →
        applyLocaleRedirects env cfg route st = st)
    ∧ (cand.head? = none → applyLocaleRedirects env cfg route st = st) := by
  subst hcand
  subst hcv
  have hcond : (!srcIsRegex route.src && decide (route.src ≠ st.path)) = false := by
    rcases helig with h | h
    · simp [h]
    · simp [h]
  refine ⟨?_, ?_, ?_⟩
  all_goals first
    | (intro rv hrv hstart
       unfold applyLocaleRedirects
       rw [hloc]
       try dsimp only
       rw [hred]
       try dsimp only
       rw [if_neg (by rw [hcond]; exact Bool.false_ne_true),
           if_neg (by rw [hnoloc]; exact Bool.false_ne_true)]
       try dsimp only
       rw [hrv]
       try dsimp only
       rw [hstart]
       rfl)
    | (intro hnone
       unfold applyLocaleRedirects
       rw [hloc]
       try dsimp only
       rw [hred]
       try dsimp only
       rw [if_neg (by rw [hcond]; exact Bool.false_ne_true),
           if_neg (by rw [hnoloc]; exact Bool.false_ne_true)]
       try dsimp only
       rw [hnone])

/-- Witness for C4: cookie locale `fr` and accept-language locale `de` with
table `{fr: /fr, de: /de}` redirect to `/fr` with status 307. -/
theorem claimC4_witness :
    locRoute.locale = some ⟨some [("fr", "/fr"), ("de", "/de")], some "NEXT_LOCALE"⟩
    ∧ srcIsRegex locRoute.src = true
    ∧ hhas stC4.normalHeaders "location" = false
    ∧ applyLocaleRedirects env0 cfgC4 locRoute stC4 =
        { stC4 with normalHeaders := hset stC4.normalHeaders "location" "/fr",
                    status := some 307 } := by
  refine ⟨by decide, by decide, by decide, ?_⟩
  exact (claimC4_locale_redirect env0 cfgC4 locRoute stC4
    ⟨some [("fr", "/fr"), ("de", "/de")], some "NEXT_LOCALE"⟩
    [("fr", "/fr"), ("de", "/de")] "fr" ["/fr", "/de"] (by decide) (by decide)
    (Or.inl (by decide)) (by decide) (by decide) (by decide)).1 "/fr"
    (by decide) (by decide)

theorem overrideFold_get_rewrite (keys : List String)
    (acc : HeadersL × HeadersL) :
    hget (keys.foldl overrideFoldStep acc).2 "x-middleware-rewrite"
      = hget acc.2 "x-middleware-rewrite" := by
  induction keys generalizing acc with
  | nil => rfl
  | cons k ks ih =>
    rw [List.foldl_cons, ih]
    unfold overrideFoldStep
    dsimp only
    exact hget_hdelete_ne _ _ _
      (Ne.symm (mwRequestKey_ne_key k "x-middleware-rewrite" (by decide)))

theorem overrideStep_frame (st : RMState) (respH : HeadersL) :
    ∃ rh rsp, overrideStep st respH = ({ st with reqHeaders := rh }, rsp)
      ∧ hget rsp "x-middleware-rewrite" = hget respH "x-middleware-rewrite" := by
  unfold overrideStep
  cases hoh : hget respH "x-middleware-override-headers" with
  | none =>
    exact ⟨st.reqHeaders, respH, rfl, rfl⟩
  | some oh =>
    dsimp only
    by_cases he : oh = ""
    · rw [if_pos he]
      exact ⟨st.reqHeaders, respH, rfl, rfl⟩
    · rw [if_neg he]
      refine ⟨_, _, rfl, ?_⟩
      rw [hget_hdelete_ne _ _ _ (by decide)]
      exact overrideFold_get_rewrite _ _

theorem nextStep_path (st : RMState) (respH : HeadersL) (b : Bool)
    (s : Nat) (bd : Option String) :
    (nextStep st respH b s bd).1.path = st.path := by
  unfold nextStep
  repeat' split
  all_goals rfl

theorem nextStep_searchParams (st : RMState) (respH : HeadersL) (b : Bool)
    (s : Nat) (bd : Option String) :
    (nextStep st respH b s bd).1.searchParams = st.searchParams := by
  unfold nextStep
  repeat' split
  all_goals rfl

theorem nextStep_get_rewrite (st : RMState) (respH : HeadersL) (b : Bool)
    (s : Nat) (bd : Option String) :
    hget (nextStep st respH b s bd).2 "x-middleware-rewrite"
      = hget respH "x-middleware-rewrite" := by
  unfold nextStep
  repeat' split
  all_goals first
    | rfl
    | exact hget_hdelete_ne _ _ _ (by decide)

theorem rewriteStep_rewrite (env : Env) (cfg : RMConfig) (st : RMState)
    (respH : HeadersL) (rv : String)
    (hrv : hget respH "x-middleware-rewrite" = some rv) (hne : rv ≠ "") :
    rewriteStep env cfg st respH =
      ({ st with
           path := if cfg.url.hostname ≠ (env.resolveURL rv cfg.url).hostname
             then env.urlToString (env.resolveURL rv cfg.url)
             else (env.resolveURL rv cfg.url).pathname,
           searchParams := applySearchParams st.searchParams
             (env.resolveURL rv cfg.url).searchParams },
       hdelete respH "x-middleware-rewrite", true) := by
  unfold rewriteStep
  rw [hrv]
  dsimp only
  rw [if_neg hne]

/-- C8: a middleware response with a non-empty `x-middleware-rewrite` header
has the value resolved against the request URL; a different hostname makes
the path the full external URL string (and a URL-shaped path makes the phase
decision terminate at once with `done`), the same hostname adopts the
resolved pathname; the resolved query parameters are merged into the
accumulated search params and the directive header is removed from the
response. -/
theorem claimC8_middleware_rewrite (env : Env) (cfg : RMConfig)
    (st : RMState) (resp : MwResp) (rv : String) (u : SimpleURL)
    (hrv : hget resp.headers "x-middleware-rewrite" = some rv)
    (hne : rv ≠ "") (hu : u = env.resolveURL rv cfg.url) :
    ((cfg.url.hostname ≠ u.hostname →
        (processMiddlewareResp env cfg st resp).1.path = env.urlToString u)
      ∧ (cfg.url.hostname = u.hostname →
        (processMiddlewareResp env cfg st resp).1.path = u.pathname))
    ∧ (processMiddlewareResp env cfg st resp).1.searchParams
        = applySearchParams st.searchParams u.searchParams
    ∧ hget (processMiddlewareResp env cfg st resp).2 "x-middleware-rewrite"
        = none
    ∧ (∀ (recur : VercelPhase → RMState → Option (CheckPhaseStatus × RMState))
        (phase : VercelPhase) (sc : Bool) (s : RMState),
        isUrl s.path = true →
        phaseDecisionGo env cfg recur phase sc s = some (.done, s)) := by
  subst hu
  obtain ⟨rh, rsp, ho, hrw⟩ := overrideStep_frame st resp.headers
  have hrsp : hget rsp "x-middleware-rewrite" = some rv := by rw [hrw, hrv]
  unfold processMiddlewareResp
  rw [ho]
  dsimp only
  rw [rewriteStep_rewrite env cfg _ rsp rv hrsp hne]
  dsimp only
  refine ⟨⟨?_, ?_⟩, ?_, ?_, ?_⟩
  · intro hx
    rw [nextStep_path]
    dsimp only
    rw [if_pos hx]
  · intro hx
    rw [nextStep_path]
    dsimp only
    rw [if_neg (not_not_intro hx)]
  · rw [nextStep_searchParams]
  · rw [nextStep_get_rewrite, hget_hdelete_self]
  · intro recur phase sc s hs
    unfold phaseDecisionGo
    simp only [hs, Bool.or_true, Bool.true_or, eq_self_iff_true, if_true]

/-- Witness for C8: a middleware rewriting to the same-host `/rewritten`
makes the path `/rewritten` and strips the directive. -/
theorem claimC8_witness :
    (processMiddlewareResp env0 cfg0 st0 respRw).1.path = "/rewritten"
    ∧ (processMiddlewareResp env0 cfg0 st0 respRw).1.searchParams = []
    ∧ hget (processMiddlewareResp env0 cfg0 st0 respRw).2
        "x-middleware-rewrite" = none := by
  have h := claimC8_middleware_rewrite env0 cfg0 st0 respRw "/rewritten"
    (env0.resolveURL "/rewritten" cfg0.url) (by decide) (by decide) rfl
  exact ⟨h.1.2 (by decide), h.2.1, h.2.2.1⟩

/-- C5: when the substituted destination ends in `/index.rsc` but the path
entering the rule was neither the bare root (`/` or `/index`) nor the
prefetch-RSC index path, `applyRouteDest` reverts to the pre-substitution
path: the resulting path (and the returned previous path) is the entering
path, only the destination URL's query parameters are merged. -/
theorem claimC5_rsc_index_revert (env : Env) (cfg : RMConfig)
    (route : VercelSource) (arr : List (Option String)) (ks : List String)
    (st : RMState) (d p1 : String)
    (hd : route.dest = some d) (hdne : d ≠ "")
    (hp1 : p1 = env.applyPCREMatches (processedDestOf cfg d) arr ks)
    (hrsc : isRscIndex p1 = true)
    (hprev1 : isPrevAbsoluteIndex st.path = false)
    (hprev2 : isPrevPrefetchRscIndex st.path = false)
    (hnr : isRsc st.path = false)
    (hnu : isUrl st.path = false)
    (hres : (env.resolveURL st.path cfg.url).pathname = st.path) :
    applyRouteDest env cfg route arr ks st =
      ({ st with path := st.path,
                 searchParams := applySearchParams st.searchParams
                   (env.resolveURL st.path cfg.url).searchParams }, st.path) := by
  subst hp1
  unfold applyRouteDest
  rw [hd]
  dsimp only
  rw [if_neg hdne]
  simp only [hrsc, hprev1, hprev2, hnr, hnu, hres, Bool.not_false,
    Bool.and_true, Bool.true_and, Bool.false_and, Bool.and_false,
    Bool.and_self, eq_self_iff_true, Bool.false_eq_true, if_true, if_false]

/-- Witness for C5: the rule rewriting `^/` to `/index.rsc` entered at
`/about` leaves the path `/about`. -/
theorem claimC5_witness :
    idxRoute.dest = some "/index.rsc"
    ∧ isRscIndex (env0.applyPCREMatches (processedDestOf cfg0 "/index.rsc")
        [some "/about"] []) = true
    ∧ isPrevAbsoluteIndex stAbout.path = false
    ∧ applyRouteDest env0 cfg0 idxRoute [some "/about"] [] stAbout =
        ({ stAbout with path := stAbout.path,
                        searchParams := applySearchParams stAbout.searchParams
                          (env0.resolveURL stAbout.path cfg0.url).searchParams },
         stAbout.path) := by
  refine ⟨by decide, by decide, by decide, ?_⟩
  exact claimC5_rsc_index_revert env0 cfg0 idxRoute [some "/about"] [] stAbout
    "/index.rsc" "/index.rsc" (by decide) (by decide) (by decide) (by decide)
    (by decide) (by decide) (by decide) (by decide) (by decide)

/-- Counterexample for C6 as frozen: a computed destination `/a.rsc/b.rsc`
ends in `.rsc`, is not `.prefetch.rsc`, and is absent from the artifact map,
yet `applyRouteDest` produces `/a/b.rsc` — the *first* case-insensitive
occurrence of `.rsc` is removed (`replace(/\.rsc/i, '')` has no anchor), not
the trailing suffix, which would give `/a.rsc/b`. -/
theorem claimC6_cex :
    isRsc "/a.rsc/b.rsc" = true
    ∧ isPrefetchRsc "/a.rsc/b.rsc" = false
    ∧ lookupOutput cfg0 "/a.rsc/b.rsc" = none
    ∧ rscRoute.dest = some "/a.rsc/b.rsc"
    ∧ env0.applyPCREMatches (processedDestOf cfg0 "/a.rsc/b.rsc")
        [some "/x"] [] = "/a.rsc/b.rsc"
    ∧ (applyRouteDest env0 cfg0 rscRoute [some "/x"] [] st0).1.path = "/a/b.rsc"
    ∧ sDropRight "/a.rsc/b.rsc" 4 = "/a.rsc/b"
    ∧ ("/a/b.rsc" : String) ≠ "/a.rsc/b" :=
  ⟨by decide, by decide, by decide, by decide, by decide, by decide,
   by decide, by decide⟩

/-- C6 (amended): when the substituted destination survives the RSC-index
correction, ends in `.rsc` (case-insensitively) but not `.prefetch.rsc`, and
is absent from the artifact map, `applyRouteDest` removes the *first*
case-insensitive occurrence of `.rsc` from it (which equals stripping the
trailing `.rsc` whenever that is the only occurrence). -/
theorem claimC6_rsc_strip (env : Env) (cfg : RMConfig)
    (route : VercelSource) (arr : List (Option String)) (ks : List String)
    (st : RMState) (d p1 : String)
    (hd : route.dest = some d) (hdne : d ≠ "")
    (hp1 : p1 = env.applyPCREMatches (processedDestOf cfg d) arr ks)
    (hidx : (isRscIndex p1 && !isPrevAbsoluteIndex st.path
        && !isPrevPrefetchRscIndex st.path) = false)
    (hrsc : isRsc p1 = true) (hpre : isPrefetchRsc p1 = false)
    (habs : lookupOutput cfg p1 = none)
    (hnu : isUrl (replaceFirstRsc p1) = false)
    (hres : (env.resolveURL (replaceFirstRsc p1) cfg.url).pathname =
      replaceFirstRsc p1) :
    applyRouteDest env cfg route arr ks st =
      ({ st with path := replaceFirstRsc p1,
                 searchParams := applySearchParams st.searchParams
                   (env.resolveURL (replaceFirstRsc p1) cfg.url).searchParams },
       st.path) := by
  subst hp1
  unfold applyRouteDest
  rw [hd]
  dsimp only
  rw [if_neg hdne]
  simp only [hidx, Bool.false_eq_true, if_false]
  simp only [hrsc, hpre, habs, hnu, hres, Option.isNone_none,
    Bool.not_false, Bool.and_true, Bool.true_and, Bool.and_self,
    eq_self_iff_true, if_true]

/-- Witness for C6 (amended): the `/a.rsc/b.rsc` destination becomes
`/a/b.rsc`, the first occurrence of `.rsc` removed. -/
theorem claimC6_witness :
    replaceFirstRsc "/a.rsc/b.rsc" = "/a/b.rsc"
    ∧ applyRouteDest env0 cfg0 rscRoute [some "/x"] [] st0 =
        ({ st0 with path := replaceFirstRsc "/a.rsc/b.rsc",
                    searchParams := applySearchParams st0.searchParams
                      (env0.resolveURL (replaceFirstRsc "/a.rsc/b.rsc")
                        cfg0.url).searchParams },
         st0.path) := by
  refine ⟨by decide, ?_⟩
  exact claimC6_rsc_strip env0 cfg0 rscRoute [some "/x"] [] st0
    "/a.rsc/b.rsc" "/a.rsc/b.rsc" (by decide) (by decide) (by decide)
    (by decide) (by decide) (by decide) (by decide) (by decide) (by decide)

end NextOnPages
